import Mathlib

/-!
# Tic-tac-toe game logic of `src/main.cpp`

A shallow embedding of the game-state globals, `resetGame`, `checkGameStatus`
and `mouse_button_callback`, followed by the properties of the
specification that concern them.

Modelling conventions.

* The six globals `board`, `currentPlayer`, `gameOver`, `winner`, `scoreX`,
  `scoreO` are the fields of `GameState`; every function takes the state and
  returns the new one.
* C++ `int` values are `Int`.  The only arithmetic on them is `scoreX++` and
  `scoreO++` on 32-bit `int`; it is `incrInt32`, the two's-complement
  increment, which wraps from `2147483647` to `-2147483648`.
* The cursor position is a pair of `double`s, embedded in `ℚ`.  The
  inversion `ypos = SCR_HEIGHT - ypos` is rounded to the nearest `double`
  (`roundDouble`, IEEE 754 binary64, ties to even).  The later
  `(pos - origin) / CELL_SIZE` is taken exact: for a `double` position in
  the board rectangle the two roundings never carry the quotient across an
  integer, so the truncated index is the same.
* `board[row][col]` with an index outside `0..2` is undefined behaviour in
  C++; `mouse_button_callback` returns `none` there.
-/

namespace TicTacToe

/-! ## Globals and constants -/

/-- The 3x3 array `int board[3][3]`: 0 empty, 1 X, 2 O. -/
abbrev Board := Fin 3 → Fin 3 → Int

/-- The mutable globals of `main.cpp` under "Game State". -/
structure GameState where
  board : Board
  currentPlayer : Int
  gameOver : Bool
  winner : Int
  scoreX : Int
  scoreO : Int

instance : DecidableEq GameState := fun a b =>
  decidable_of_iff
    (a.board = b.board ∧ a.currentPlayer = b.currentPlayer ∧ a.gameOver = b.gameOver ∧
      a.winner = b.winner ∧ a.scoreX = b.scoreX ∧ a.scoreO = b.scoreO)
    (by cases a; cases b; simp)

/-- The initialisers of the globals. -/
def initialState : GameState :=
  { board := fun _ _ => 0, currentPlayer := 1, gameOver := false, winner := 0,
    scoreX := 0, scoreO := 0 }

def SCR_WIDTH : ℚ := 800
def SCR_HEIGHT : ℚ := 600

def BOARD_SIZE : ℚ := 450
def CELL_SIZE : ℚ := BOARD_SIZE / 3
def BOARD_X : ℚ := (SCR_WIDTH - BOARD_SIZE) / 2
def BOARD_Y : ℚ := (SCR_HEIGHT - BOARD_SIZE) / 2 - 30

def BUTTON_X : ℚ := 300
def BUTTON_Y : ℚ := 530
def BUTTON_WIDTH : ℚ := 200
def BUTTON_HEIGHT : ℚ := 50

/-- The value of `GLFW_MOUSE_BUTTON_LEFT` in `GLFW/glfw3.h`. -/
def GLFW_MOUSE_BUTTON_LEFT : Int := 0

/-- The value of `GLFW_PRESS` in `GLFW/glfw3.h`. -/
def GLFW_PRESS : Int := 1

/-! ## Game logic -/

/-- The function `resetGame`: clears the board, X to move, no outcome; the
scores are not touched. -/
def resetGame (s : GameState) : GameState :=
  { s with board := fun _ _ => 0, currentPlayer := 1, gameOver := false, winner := 0 }

/-- The first half of `checkGameStatus` (source lines 185-191): the value of
`winner` after the row/column loop and the two diagonal tests, starting from
the value `w`. -/
def checkLines (b : Board) (w : Int) : Int :=
  let w := ([0, 1, 2] : List (Fin 3)).foldl
    (fun w i =>
      let w := if b i 0 ≠ 0 ∧ b i 0 = b i 1 ∧ b i 1 = b i 2 then b i 0 else w
      if b 0 i ≠ 0 ∧ b 0 i = b 1 i ∧ b 1 i = b 2 i then b 0 i else w)
    w
  let w := if b 0 0 ≠ 0 ∧ b 0 0 = b 1 1 ∧ b 1 1 = b 2 2 then b 0 0 else w
  if b 0 2 ≠ 0 ∧ b 0 2 = b 1 1 ∧ b 1 1 = b 2 0 then b 0 2 else w

/-- The draw loop of `checkGameStatus` (source lines 201-210): `isDraw` stays
true exactly when no cell is 0. -/
def isDraw (b : Board) : Bool :=
  ([0, 1, 2] : List (Fin 3)).all fun i =>
    ([0, 1, 2] : List (Fin 3)).all fun j => decide (b i j ≠ 0)

/-- The increment `n++` of a 32-bit `int`: `n + 1`, wrapping from `2147483647`
to `-2147483648`. -/
def incrInt32 (n : Int) : Int := (n + 1 + 2147483648) % 4294967296 - 2147483648

/-- The second half of `checkGameStatus` (source lines 193-215), with `w` the
value of `winner` left by the line tests. -/
def finishStatus (s : GameState) (w : Int) : GameState :=
  if w ≠ 0 then
    if w = 1 then { s with winner := w, gameOver := true, scoreX := incrInt32 s.scoreX }
    else if w = 2 then { s with winner := w, gameOver := true, scoreO := incrInt32 s.scoreO }
    else { s with winner := w, gameOver := true }
  else if isDraw s.board then { s with winner := 3, gameOver := true }
  else { s with winner := w }

/-- The function `checkGameStatus`. -/
def checkGameStatus (s : GameState) : GameState :=
  finishStatus s (checkLines s.board s.winner)

/-! ## Input handling -/

/-- Rounding to the nearest integer, a tie going to the even one. -/
def roundHalfEven (q : ℚ) : Int :=
  if q - ⌊q⌋ < 1 / 2 then ⌊q⌋
  else if 1 / 2 < q - ⌊q⌋ then ⌊q⌋ + 1
  else if ⌊q⌋ % 2 = 0 then ⌊q⌋ else ⌊q⌋ + 1

/-- The binary logarithm by repeated halving, with a bound on the number of
halvings. -/
def log2Fuel : Nat → Nat → Nat
  | 0, _ => 0
  | fuel + 1, n => if 2 ≤ n then log2Fuel fuel (n / 2) + 1 else 0

/-- The binary logarithm of a natural number, rounded down; it is `Nat.log2`
(`natLog2_eq`). -/
def natLog2 (n : Nat) : Nat := log2Fuel n n

/-- The binary exponent of a non-zero value: the `e` with
`2 ^ e ≤ |q| < 2 ^ (e + 1)`. -/
def binaryExponent (q : ℚ) : Int :=
  let a := if 0 ≤ q then q else -q
  if 1 ≤ a then (natLog2 ⌊a⌋.toNat : Int)
  else -((natLog2 (⌈a⁻¹⌉.toNat - 1) : Int) + 1)

/-- The `double` nearest to `q` (IEEE 754 binary64, round to nearest, ties to
even): 53 significant bits, exponent not below -1022.  Overflow to infinity is
left out; the difference of 600 and a `double` never overflows. -/
def roundDouble (q : ℚ) : ℚ :=
  if q = 0 then 0
  else
    let ulp : ℚ := 2 ^ (max (binaryExponent q) (-1022) - 52)
    roundHalfEven (q / ulp) * ulp

/-- Source line 223, `ypos = SCR_HEIGHT - ypos`: a `double` subtraction. -/
def invertY (cursorY : ℚ) : ℚ := roundDouble (SCR_HEIGHT - cursorY)

/-- Conversion of a `double` to `int`: truncation toward zero. -/
def truncToInt (q : ℚ) : Int := if 0 ≤ q then ⌊q⌋ else ⌈q⌉

/-- An `int` used as an index into an array of length 3: `none` when it is out
of range. -/
def cellIndex (i : Int) : Option (Fin 3) :=
  if h : 0 ≤ i ∧ i < 3 then some ⟨i.toNat, by omega⟩ else none

/-- The restart-button test of `mouse_button_callback` (source lines 226-227),
on the position with `ypos` already inverted. -/
def inButton (xpos ypos : ℚ) : Prop :=
  xpos ≥ BUTTON_X ∧ xpos ≤ BUTTON_X + BUTTON_WIDTH ∧
    ypos ≥ BUTTON_Y ∧ ypos ≤ BUTTON_Y + BUTTON_HEIGHT

instance (xpos ypos : ℚ) : Decidable (inButton xpos ypos) :=
  inferInstanceAs (Decidable (_ ∧ _))

/-- The board test of `mouse_button_callback` (source lines 235-236), on the
position with `ypos` already inverted. -/
def inBoard (xpos ypos : ℚ) : Prop :=
  xpos ≥ BOARD_X ∧ xpos ≤ BOARD_X + BOARD_SIZE ∧
    ypos ≥ BOARD_Y ∧ ypos ≤ BOARD_Y + BOARD_SIZE

instance (xpos ypos : ℚ) : Decidable (inBoard xpos ypos) :=
  inferInstanceAs (Decidable (_ ∧ _))

/-- The column computed at source line 238. -/
def clickCol (xpos : ℚ) : Int := truncToInt ((xpos - BOARD_X) / CELL_SIZE)

/-- The row computed at source line 239. -/
def clickRow (ypos : ℚ) : Int := truncToInt ((ypos - BOARD_Y) / CELL_SIZE)

/-- The assignment `board[r][c] = p`. -/
def setCell (b : Board) (r c : Fin 3) (p : Int) : Board :=
  Function.update b r (Function.update (b r) c p)

/-- Source lines 241-245: the mark is placed when the cell is empty. -/
def placeMark (s : GameState) (r c : Fin 3) : GameState :=
  if s.board r c = 0 then
    checkGameStatus
      { s with
        board := setCell s.board r c s.currentPlayer
        currentPlayer := if s.currentPlayer = 1 then 2 else 1 }
  else s

/-- The function `mouse_button_callback`.  `cursorX`, `cursorY` are what
`glfwGetCursorPos` stores into `xpos`, `ypos`. -/
def mouse_button_callback (s : GameState) (button action : Int) (cursorX cursorY : ℚ) :
    Option GameState :=
  if button = GLFW_MOUSE_BUTTON_LEFT ∧ action = GLFW_PRESS then
    let xpos := cursorX
    let ypos := invertY cursorY
    if inButton xpos ypos then some (resetGame s)
    else if s.gameOver then some s
    else if inBoard xpos ypos then
      match cellIndex (clickRow ypos), cellIndex (clickCol xpos) with
      | some r, some c => some (placeMark s r c)
      | _, _ => none
    else some s
  else some s

/-! ## Vocabulary of the specification -/

/-- A cell position: row and column. -/
abbrev Cell := Fin 3 × Fin 3

/-- A line of the board: three cell positions. -/
abbrev Line := Cell × Cell × Cell

def rowLine (i : Fin 3) : Line := ((i, 0), (i, 1), (i, 2))
def colLine (i : Fin 3) : Line := ((0, i), (1, i), (2, i))
def diagLine : Line := ((0, 0), (1, 1), (2, 2))
def antiLine : Line := ((0, 2), (1, 1), (2, 0))

/-- The 8 lines: 3 rows, 3 columns, 2 diagonals. -/
def winLines : List Line :=
  [rowLine 0, rowLine 1, rowLine 2, colLine 0, colLine 1, colLine 2, diagLine, antiLine]

/-- The order in which `checkGameStatus` tests the 8 lines: row `i` and
column `i` interleaved for `i = 0, 1, 2`, then the two diagonals. -/
def codeOrder : List Line :=
  [rowLine 0, colLine 0, rowLine 1, colLine 1, rowLine 2, colLine 2, diagLine, antiLine]

/-- The content of a cell. -/
def cellAt (b : Board) (p : Cell) : Int := b p.1 p.2

/-- The three cells of the line all hold `m`. -/
def lineHolds (b : Board) (l : Line) (m : Int) : Prop :=
  cellAt b l.1 = m ∧ cellAt b l.2.1 = m ∧ cellAt b l.2.2 = m

/-- The line holds three equal non-empty marks. -/
def lineFilled (b : Board) (l : Line) : Prop :=
  cellAt b l.1 ≠ 0 ∧ cellAt b l.1 = cellAt b l.2.1 ∧ cellAt b l.2.1 = cellAt b l.2.2

instance (b : Board) (l : Line) : Decidable (lineFilled b l) :=
  inferInstanceAs (Decidable (_ ∧ _))

instance (b : Board) (l : Line) (m : Int) : Decidable (lineHolds b l m) :=
  inferInstanceAs (Decidable (_ ∧ _))

/-- Some line of the board holds three equal non-empty marks. -/
def hasLine (b : Board) : Prop := ∃ l ∈ winLines, lineFilled b l

/-- Some cell of the board is empty. -/
def hasEmpty (b : Board) : Prop := ∃ i j, b i j = 0

/-- One line test: `if (filled) winner = first cell of the line`. -/
def lineStep (b : Board) (w : Int) (l : Line) : Int :=
  if lineFilled b l then cellAt b l.1 else w

/-- The states reachable from the initial state by mouse events whose
handling is defined (no array index out of range). -/
inductive Reachable : GameState → Prop
  | init : Reachable initialState
  | step {s t : GameState} (button action : Int) (x y : ℚ) :
      Reachable s → mouse_button_callback s button action x y = some t → Reachable t

/-- The outcome is "in progress". -/
def inProgress (s : GameState) : Prop := s.gameOver = false ∧ s.winner = 0

instance (s : GameState) : Decidable (inProgress s) :=
  inferInstanceAs (Decidable (_ ∧ _))

/-- The invariant of the reachable states. -/
def Inv (s : GameState) : Prop :=
  (s.gameOver = true ↔ s.winner ≠ 0) ∧
  (s.winner = 0 ↔ hasEmpty s.board ∧ ¬ hasLine s.board) ∧
  (∀ l ∈ winLines, lineFilled s.board l → cellAt s.board l.1 = s.winner) ∧
  (s.currentPlayer = 1 ∨ s.currentPlayer = 2)

/-- Left clicks at the given cursor positions, one after the other. -/
def leftClicks (s : GameState) : List (ℚ × ℚ) → Option GameState
  | [] => some s
  | (x, y) :: rest =>
    (mouse_button_callback s GLFW_MOUSE_BUTTON_LEFT GLFW_PRESS x y).bind
      fun t => leftClicks t rest

/-- A board from its three rows. -/
def boardOf (r0 r1 r2 : Int × Int × Int) : Board := fun i j =>
  let r := if i = 0 then r0 else if i = 1 then r1 else r2
  if j = 0 then r.1 else if j = 1 then r.2.1 else r.2.2

/-- The cursor positions of the moves (0,0) (1,1) (0,1) (2,2) (0,2), each at
the centre of its cell. -/
def scenario1Clicks : List (ℚ × ℚ) :=
  [(250, 480), (400, 330), (400, 480), (550, 180), (550, 480)]

/-- The state after `scenario1Clicks`: X has filled row 0. -/
def scenario1State : GameState :=
  { board := boardOf (1, 1, 1) (0, 2, 0) (0, 0, 2), currentPlayer := 2, gameOver := true,
    winner := 1, scoreX := 1, scoreO := 0 }

/-- A board that no legal game produces: row 0 filled by X and row 1 by O. -/
def twoLineState : GameState :=
  { board := boardOf (1, 1, 1) (2, 2, 2) (0, 0, 0), currentPlayer := 1, gameOver := false,
    winner := 0, scoreX := 0, scoreO := 0 }

/-- Row 0 filled by X, about to be evaluated. -/
def rowXState : GameState :=
  { board := boardOf (1, 1, 1) (2, 2, 0) (0, 0, 0), currentPlayer := 2, gameOver := false,
    winner := 0, scoreX := 0, scoreO := 0 }

/-- One X in cell (0,0), O to move. -/
def oneMarkState : GameState :=
  { board := boardOf (1, 0, 0) (0, 0, 0) (0, 0, 0), currentPlayer := 2, gameOver := false,
    winner := 0, scoreX := 0, scoreO := 0 }

/-- The event is a left click on the restart button. -/
def isRestartClick (button action : Int) (x y : ℚ) : Prop :=
  button = GLFW_MOUSE_BUTTON_LEFT ∧ action = GLFW_PRESS ∧ inButton x (invertY y)

/-- Runs of mouse events between two restarts: none of the events is a click
on the restart button. -/
inductive PlayRun : GameState → GameState → Prop
  | refl (s : GameState) : PlayRun s s
  | step {s t u : GameState} (button action : Int) (x y : ℚ) :
      ¬ isRestartClick button action x y →
      mouse_button_callback s button action x y = some t → PlayRun t u → PlayRun s u

/-- Runs of accepted moves, with the marks they place: each move is a left
click on the board that lands on an empty cell `(r, c)` while the game is not
over, and the mark recorded is the content of that cell after the click. -/
inductive MoveRun : GameState → List Int → GameState → Prop
  | nil (s : GameState) : MoveRun s [] s
  | cons {s t u : GameState} {ms : List Int} (x y : ℚ) (r c : Fin 3) :
      s.gameOver = false → inBoard x (invertY y) →
      cellIndex (clickRow (invertY y)) = some r → cellIndex (clickCol x) = some c →
      s.board r c = 0 →
      mouse_button_callback s GLFW_MOUSE_BUTTON_LEFT GLFW_PRESS x y = some t →
      MoveRun t ms u → MoveRun s (t.board r c :: ms) u

/-- The marks `p`, other, `p`, other, ... (`n` of them), with X = 1 and O = 2. -/
def alternateMarks (p : Int) : Nat → List Int
  | 0 => []
  | n + 1 => p :: alternateMarks (3 - p) n

/-- The sum of the two score counters. -/
def totalScore (s : GameState) : Int := s.scoreX + s.scoreO

/-- The state before the last move of scenario 1: X X _ / _ O _ / _ _ O, X to
move. -/
def scenario1Before : GameState :=
  { board := boardOf (1, 1, 0) (0, 2, 0) (0, 0, 2), currentPlayer := 1, gameOver := false,
    winner := 0, scoreX := 0, scoreO := 0 }

/-- An X in the centre cell, O to move. -/
def centreMarkState : GameState :=
  { board := boardOf (0, 0, 0) (0, 1, 0) (0, 0, 0), currentPlayer := 2, gameOver := false,
    winner := 0, scoreX := 0, scoreO := 0 }

/-- An X in the centre cell and an O in cell (0,0), X to move. -/
def twoMarkState : GameState :=
  { board := boardOf (2, 0, 0) (0, 1, 0) (0, 0, 0), currentPlayer := 1, gameOver := false,
    winner := 0, scoreX := 0, scoreO := 0 }

/-- The full board X O X / X O O / O X X without a filled line, about to be
evaluated. -/
def drawState : GameState :=
  { board := boardOf (1, 2, 1) (1, 2, 2) (2, 1, 1), currentPlayer := 2, gameOver := false,
    winner := 0, scoreX := 0, scoreO := 0 }

/-- The board of `scenario1State` as `checkGameStatus` receives it inside the
last click: mark written, turn toggled, outcome not yet evaluated. -/
def scenario1Pending : GameState :=
  { board := boardOf (1, 1, 1) (0, 2, 0) (0, 0, 2), currentPlayer := 2, gameOver := false,
    winner := 0, scoreX := 0, scoreO := 0 }

/-- The mark of the first filled line of `order`, or `w` when none is filled. -/
def firstFilled (b : Board) (order : List Line) (w : Int) : Int :=
  match order.find? (fun l => decide (lineFilled b l)) with
  | some l => cellAt b l.1
  | none => w

/-- Outcome evaluation as the specification describes it, with the lines
tested in an arbitrary order: with `firstMatch` the first filled line of
`order` decides the winner, otherwise the last one does; the rest (game over,
score increment, draw test) is as in `checkGameStatus`. -/
def evaluateOutcomeWith (order : List Line) (firstMatch : Bool) (s : GameState) : GameState :=
  finishStatus s
    (if firstMatch then firstFilled s.board order s.winner
      else order.foldl (lineStep s.board) s.winner)

/-- The value is a 32-bit `int`. -/
def inInt32 (n : Int) : Prop := -2147483648 ≤ n ∧ n ≤ 2147483647

instance (n : Int) : Decidable (inInt32 n) :=
  inferInstanceAs (Decidable (_ ∧ _))

/-- The state with the two score counters replaced. -/
def withScores (s : GameState) (a b : Int) : GameState :=
  { s with scoreX := a, scoreO := b }

/-- Scenario 1 after two moves: X _ _ / _ O _ / _ _ _, X to move. -/
def scenario1Two : GameState :=
  { board := boardOf (1, 0, 0) (0, 2, 0) (0, 0, 0), currentPlayer := 1, gameOver := false,
    winner := 0, scoreX := 0, scoreO := 0 }

/-- Scenario 1 after three moves: X X _ / _ O _ / _ _ _, O to move. -/
def scenario1Three : GameState :=
  { board := boardOf (1, 1, 0) (0, 2, 0) (0, 0, 0), currentPlayer := 2, gameOver := false,
    winner := 0, scoreX := 0, scoreO := 0 }

/-- The state before the last move of scenario 1 with `scoreX` at the largest
32-bit `int`. -/
def maxScoreBefore : GameState := withScores scenario1Before 2147483647 0

/-- An X in cell (2,1), O to move. -/
def rowTwoMarkState : GameState :=
  { board := boardOf (0, 0, 0) (0, 0, 0) (0, 1, 0), currentPlayer := 2, gameOver := false,
    winner := 0, scoreX := 0, scoreO := 0 }

/-! ## The line tests -/

theorem checkLines_eq_foldl (b : Board) (w : Int) :
    checkLines b w = codeOrder.foldl (lineStep b) w := rfl

theorem mem_codeOrder (l : Line) : l ∈ codeOrder ↔ l ∈ winLines := by
  simp only [codeOrder, winLines, List.mem_cons, List.mem_singleton, List.not_mem_nil, or_false]
  tauto

theorem foldl_lineStep_none (b : Board) (ls : List Line) (w : Int)
    (h : ∀ l ∈ ls, ¬ lineFilled b l) : ls.foldl (lineStep b) w = w := by
  induction ls generalizing w with
  | nil => rfl
  | cons l rest ih =>
    have hl : ¬ lineFilled b l := h l (List.mem_cons_self _ _)
    rw [List.foldl_cons, ih _ (fun k hk => h k (List.mem_cons_of_mem _ hk))]
    simp [lineStep, hl]

theorem foldl_lineStep_some (b : Board) (m : Int) (ls : List Line) (w : Int)
    (hex : ∃ l ∈ ls, lineFilled b l)
    (hall : ∀ l ∈ ls, lineFilled b l → cellAt b l.1 = m) :
    ls.foldl (lineStep b) w = m := by
  induction ls generalizing w with
  | nil => simp at hex
  | cons l rest ih =>
    rw [List.foldl_cons]
    by_cases hrest : ∃ k ∈ rest, lineFilled b k
    · exact ih _ hrest (fun k hk => hall k (List.mem_cons_of_mem _ hk))
    · have hnone : ∀ k ∈ rest, ¬ lineFilled b k := fun k hk hf => hrest ⟨k, hk, hf⟩
      rw [foldl_lineStep_none b rest _ hnone]
      obtain ⟨k, hk, hf⟩ := hex
      rcases List.mem_cons.mp hk with rfl | hk2
      · simp [lineStep, hf, hall k (List.mem_cons_self _ _) hf]
      · exact absurd hf (hnone k hk2)

/-! ## Field-by-field description of `finishStatus` -/

@[simp] theorem finishStatus_board (s : GameState) (w : Int) :
    (finishStatus s w).board = s.board := by
  unfold finishStatus; split_ifs <;> rfl

@[simp] theorem finishStatus_currentPlayer (s : GameState) (w : Int) :
    (finishStatus s w).currentPlayer = s.currentPlayer := by
  unfold finishStatus; split_ifs <;> rfl

theorem finishStatus_winner (s : GameState) (w : Int) :
    (finishStatus s w).winner = if w ≠ 0 then w else if isDraw s.board then 3 else 0 := by
  unfold finishStatus; split_ifs <;> simp_all

theorem finishStatus_gameOver (s : GameState) (w : Int) :
    (finishStatus s w).gameOver =
      if w ≠ 0 then true else if isDraw s.board then true else s.gameOver := by
  unfold finishStatus; split_ifs <;> simp_all

theorem finishStatus_scoreX (s : GameState) (w : Int) :
    (finishStatus s w).scoreX = if w = 1 then incrInt32 s.scoreX else s.scoreX := by
  unfold finishStatus; split_ifs <;> simp_all

theorem finishStatus_scoreO (s : GameState) (w : Int) :
    (finishStatus s w).scoreO = if w = 2 then incrInt32 s.scoreO else s.scoreO := by
  unfold finishStatus; split_ifs <;> simp_all

theorem isDraw_iff (b : Board) : isDraw b = true ↔ ¬ hasEmpty b := by
  simp [isDraw, hasEmpty, Fin.forall_fin_succ]

theorem checkLines_of_not_hasLine (b : Board) (w : Int) (h : ¬ hasLine b) :
    checkLines b w = w := by
  rw [checkLines_eq_foldl]
  exact foldl_lineStep_none b _ w (fun l hl hf => h ⟨l, (mem_codeOrder l).mp hl, hf⟩)

theorem checkLines_of_hasLine (b : Board) (w m : Int) (h : hasLine b)
    (hall : ∀ l ∈ winLines, lineFilled b l → cellAt b l.1 = m) :
    checkLines b w = m := by
  rw [checkLines_eq_foldl]
  obtain ⟨l, hl, hf⟩ := h
  exact foldl_lineStep_some b m _ w ⟨l, (mem_codeOrder l).mpr hl, hf⟩
    (fun k hk => hall k ((mem_codeOrder k).mp hk))

/-! ## Writing one cell -/

theorem cellAt_setCell (b : Board) (r c : Fin 3) (p : Int) (q : Cell) :
    cellAt (setCell b r c p) q = if q = (r, c) then p else cellAt b q := by
  obtain ⟨i, j⟩ := q
  unfold cellAt setCell
  by_cases hi : i = r
  · subst hi
    by_cases hj : j = c
    · subst hj; simp
    · simp [hj]
  · simp [Function.update_noteq hi, hi]

theorem setCell_apply (b : Board) (r c : Fin 3) (p : Int) (i j : Fin 3) :
    setCell b r c p i j = if (i, j) = (r, c) then p else b i j :=
  cellAt_setCell b r c p (i, j)

/-- A line that is filled after a write was filled before, or carries the
written mark. -/
theorem lineFilled_setCell (b : Board) (r c : Fin 3) (p : Int) (l : Line)
    (h : lineFilled (setCell b r c p) l) :
    lineFilled b l ∨ cellAt (setCell b r c p) l.1 = p := by
  obtain ⟨h0, h1, h2⟩ := h
  by_cases e1 : l.1 = (r, c)
  · right; rw [cellAt_setCell, if_pos e1]
  by_cases e2 : l.2.1 = (r, c)
  · right; rw [h1, cellAt_setCell, if_pos e2]
  by_cases e3 : l.2.2 = (r, c)
  · right; rw [h1, h2, cellAt_setCell, if_pos e3]
  left
  simp only [cellAt_setCell, if_neg e1, if_neg e2, if_neg e3] at h0 h1 h2
  exact ⟨h0, h1, h2⟩

/-! ## The invariant -/

theorem not_lineFilled_empty (l : Line) : ¬ lineFilled (fun _ _ => 0) l := by
  intro h; exact h.1 rfl

theorem Inv_of_empty (s : GameState) (hb : s.board = fun _ _ => 0) (hg : s.gameOver = false)
    (hw : s.winner = 0) (hp : s.currentPlayer = 1) : Inv s := by
  refine ⟨by simp [hg, hw], ?_, ?_, Or.inl hp⟩
  · simp only [hw, true_iff]
    refine ⟨⟨0, 0, by rw [hb]⟩, ?_⟩
    rintro ⟨l, _, hf⟩
    rw [hb] at hf
    exact not_lineFilled_empty l hf
  · intro l _ hf
    rw [hb] at hf
    exact absurd hf (not_lineFilled_empty l)

theorem Inv_initialState : Inv initialState :=
  Inv_of_empty _ rfl rfl rfl rfl

theorem Inv_resetGame (s : GameState) : Inv (resetGame s) :=
  Inv_of_empty _ rfl rfl rfl rfl

/-- What `checkGameStatus` computes after a mark is written to an empty cell
of a board without a filled line: every filled line carries the new mark. -/
theorem checkLines_after_move (b : Board) (r c : Fin 3) (p w : Int) (hno : ¬ hasLine b) :
    (hasLine (setCell b r c p) → checkLines (setCell b r c p) w = p ∧ p ≠ 0) ∧
    (¬ hasLine (setCell b r c p) → checkLines (setCell b r c p) w = w) ∧
    (∀ l ∈ winLines, lineFilled (setCell b r c p) l → cellAt (setCell b r c p) l.1 = p) := by
  have hall : ∀ l ∈ winLines, lineFilled (setCell b r c p) l →
      cellAt (setCell b r c p) l.1 = p := fun l hl hf =>
    (lineFilled_setCell b r c p l hf).resolve_left (fun hfb => hno ⟨l, hl, hfb⟩)
  refine ⟨fun hl => ⟨checkLines_of_hasLine _ w p hl hall, ?_⟩,
    fun hl => checkLines_of_not_hasLine _ w hl, hall⟩
  obtain ⟨l, hmem, hf⟩ := hl
  have := hall l hmem hf
  rw [← this]
  exact hf.1

theorem other_player (p : Int) : (if p = 1 then (2 : Int) else 1) = 1 ∨
    (if p = 1 then (2 : Int) else 1) = 2 := by
  split_ifs <;> simp

theorem placeMark_of_occupied (s : GameState) (r c : Fin 3) (hc : s.board r c ≠ 0) :
    placeMark s r c = s := by
  unfold placeMark; rw [if_neg hc]

theorem placeMark_of_empty (s : GameState) (r c : Fin 3) (hc : s.board r c = 0) :
    placeMark s r c =
      finishStatus
        { s with
          board := setCell s.board r c s.currentPlayer
          currentPlayer := if s.currentPlayer = 1 then 2 else 1 }
        (checkLines (setCell s.board r c s.currentPlayer) s.winner) := by
  unfold placeMark; rw [if_pos hc]; rfl

/-- The ways in which `mouse_button_callback` returns a state. -/
theorem callback_cases {s t : GameState} {button action : Int} {x y : ℚ}
    (hstep : mouse_button_callback s button action x y = some t) :
    t = s ∨
    (button = GLFW_MOUSE_BUTTON_LEFT ∧ action = GLFW_PRESS ∧ inButton x (invertY y) ∧
      t = resetGame s) ∨
    (button = GLFW_MOUSE_BUTTON_LEFT ∧ action = GLFW_PRESS ∧ ¬ inButton x (invertY y) ∧
      s.gameOver = false ∧ inBoard x (invertY y) ∧
      ∃ r c, cellIndex (clickRow (invertY y)) = some r ∧
        cellIndex (clickCol x) = some c ∧ t = placeMark s r c) := by
  unfold mouse_button_callback at hstep
  by_cases h1 : button = GLFW_MOUSE_BUTTON_LEFT ∧ action = GLFW_PRESS
  swap
  · rw [if_neg h1] at hstep
    exact Or.inl (Option.some.inj hstep).symm
  rw [if_pos h1] at hstep
  dsimp only at hstep
  by_cases h2 : inButton x (invertY y)
  · rw [if_pos h2] at hstep
    exact Or.inr (Or.inl ⟨h1.1, h1.2, h2, (Option.some.inj hstep).symm⟩)
  rw [if_neg h2] at hstep
  cases h3 : s.gameOver
  swap
  · rw [h3, if_pos rfl] at hstep
    exact Or.inl (Option.some.inj hstep).symm
  rw [h3] at hstep
  simp only [Bool.false_eq_true, if_false] at hstep
  by_cases h4 : inBoard x (invertY y)
  swap
  · rw [if_neg h4] at hstep
    exact Or.inl (Option.some.inj hstep).symm
  rw [if_pos h4] at hstep
  cases hr : cellIndex (clickRow (invertY y)) with
  | none => simp [hr] at hstep
  | some r =>
    cases hcol : cellIndex (clickCol x) with
    | none => simp [hr, hcol] at hstep
    | some c =>
      simp only [hr, hcol] at hstep
      exact Or.inr (Or.inr ⟨h1.1, h1.2, h2, rfl, h4, r, c, rfl, rfl,
        (Option.some.inj hstep).symm⟩)

theorem winner_eq_zero_of_inv {s : GameState} (h : Inv s) (hg : s.gameOver = false) :
    s.winner = 0 := by
  by_contra hne
  have := h.1.mpr hne
  simp [hg] at this

theorem Inv_placeMark (s : GameState) (r c : Fin 3) (h : Inv s) (hg : s.gameOver = false) :
    Inv (placeMark s r c) := by
  by_cases hc : s.board r c = 0
  swap
  · rw [placeMark_of_occupied s r c hc]; exact h
  rw [placeMark_of_empty s r c hc]
  have hw0 : s.winner = 0 := winner_eq_zero_of_inv h hg
  have hno : ¬ hasLine s.board := (h.2.1.mp hw0).2
  obtain ⟨ha, hb, hall⟩ := checkLines_after_move s.board r c s.currentPlayer s.winner hno
  by_cases hl : hasLine (setCell s.board r c s.currentPlayer)
  · obtain ⟨hw, hp⟩ := ha hl
    rw [hw]
    refine ⟨?_, ?_, ?_, ?_⟩
    · simp [finishStatus_winner, finishStatus_gameOver, hp]
    · simp [finishStatus_winner, hp, hl]
    · simpa [finishStatus_winner, hp] using hall
    · simpa using other_player s.currentPlayer
  · rw [hb hl, hw0]
    refine ⟨?_, ?_, ?_, ?_⟩
    · simp only [finishStatus_winner, finishStatus_gameOver, hg]
      cases isDraw (setCell s.board r c s.currentPlayer) <;> simp
    · simp only [finishStatus_winner, finishStatus_board]
      have := isDraw_iff (setCell s.board r c s.currentPlayer)
      cases hd : isDraw (setCell s.board r c s.currentPlayer) <;> simp_all
    · intro l hmem hf
      exact absurd ⟨l, hmem, by simpa using hf⟩ hl
    · simpa using other_player s.currentPlayer

theorem Inv_callback (s t : GameState) (button action : Int) (x y : ℚ) (h : Inv s)
    (hstep : mouse_button_callback s button action x y = some t) : Inv t := by
  rcases callback_cases hstep with rfl | ⟨_, _, _, rfl⟩ | ⟨_, _, _, hg, _, r, c, _, _, rfl⟩
  · exact h
  · exact Inv_resetGame s
  · exact Inv_placeMark s r c h hg

theorem Reachable.inv {s : GameState} (h : Reachable s) : Inv s := by
  induction h with
  | init => exact Inv_initialState
  | step button action x y _ hstep ih => exact Inv_callback _ _ button action x y ih hstep

theorem reachable_leftClicks {s t : GameState} (cs : List (ℚ × ℚ)) (hs : Reachable s)
    (h : leftClicks s cs = some t) : Reachable t := by
  induction cs generalizing s with
  | nil =>
    simp only [leftClicks, Option.some.injEq] at h
    exact h ▸ hs
  | cons p rest ih =>
    obtain ⟨x, y⟩ := p
    simp only [leftClicks, Option.bind_eq_some] at h
    obtain ⟨u, hu, hrest⟩ := h
    exact ih (Reachable.step _ _ x y hs hu) hrest

theorem foldl_lineStep_mem (b : Board) (ls : List Line) (w : Int)
    (hex : ∃ l ∈ ls, lineFilled b l) :
    ∃ k ∈ ls, lineFilled b k ∧ ls.foldl (lineStep b) w = cellAt b k.1 := by
  induction ls generalizing w with
  | nil => simp at hex
  | cons l rest ih =>
    rw [List.foldl_cons]
    by_cases hrest : ∃ k ∈ rest, lineFilled b k
    · obtain ⟨k, hk, hf, he⟩ := ih (lineStep b w l) hrest
      exact ⟨k, List.mem_cons_of_mem _ hk, hf, he⟩
    · have hnone : ∀ k ∈ rest, ¬ lineFilled b k := fun k hk hf => hrest ⟨k, hk, hf⟩
      rw [foldl_lineStep_none b rest _ hnone]
      obtain ⟨k, hk, hf⟩ := hex
      rcases List.mem_cons.mp hk with rfl | hk2
      · exact ⟨k, List.mem_cons_self _ _, hf, by simp [lineStep, hf]⟩
      · exact absurd hf (hnone k hk2)

theorem foldl_lineStep_start (b : Board) (ls : List Line) (w v : Int)
    (hex : ∃ l ∈ ls, lineFilled b l) :
    ls.foldl (lineStep b) w = ls.foldl (lineStep b) v := by
  induction ls generalizing w v with
  | nil => simp at hex
  | cons l rest ih =>
    rw [List.foldl_cons, List.foldl_cons]
    by_cases hrest : ∃ k ∈ rest, lineFilled b k
    · exact ih _ _ hrest
    · have hnone : ∀ k ∈ rest, ¬ lineFilled b k := fun k hk hf => hrest ⟨k, hk, hf⟩
      rw [foldl_lineStep_none b rest _ hnone, foldl_lineStep_none b rest _ hnone]
      obtain ⟨k, hk, hf⟩ := hex
      rcases List.mem_cons.mp hk with rfl | hk2
      · simp [lineStep, hf]
      · exact absurd hf (hnone k hk2)

theorem checkGameStatus_def (s : GameState) :
    checkGameStatus s = finishStatus s (checkLines s.board s.winner) := rfl

theorem checkLines_mem (b : Board) (w : Int) (h : hasLine b) :
    ∃ k ∈ winLines, lineFilled b k ∧ checkLines b w = cellAt b k.1 := by
  rw [checkLines_eq_foldl]
  obtain ⟨l, hl, hf⟩ := h
  obtain ⟨k, hk, hkf, he⟩ := foldl_lineStep_mem b codeOrder w ⟨l, (mem_codeOrder l).mpr hl, hf⟩
  exact ⟨k, (mem_codeOrder k).mp hk, hkf, he⟩

theorem foldl_lineStep_last (b : Board) (ls : List Line) (w : Int)
    (hex : ∃ l ∈ ls, lineFilled b l) :
    ∃ pre k post, ls = pre ++ k :: post ∧ lineFilled b k ∧
      (∀ l ∈ post, ¬ lineFilled b l) ∧ ls.foldl (lineStep b) w = cellAt b k.1 := by
  induction ls generalizing w with
  | nil => simp at hex
  | cons l rest ih =>
    rw [List.foldl_cons]
    by_cases hrest : ∃ k ∈ rest, lineFilled b k
    · obtain ⟨pre, k, post, he, hf, hpost, hval⟩ := ih (lineStep b w l) hrest
      exact ⟨l :: pre, k, post, by rw [he]; rfl, hf, hpost, hval⟩
    · have hnone : ∀ k ∈ rest, ¬ lineFilled b k := fun k hk hf => hrest ⟨k, hk, hf⟩
      rw [foldl_lineStep_none b rest _ hnone]
      obtain ⟨k, hk, hf⟩ := hex
      rcases List.mem_cons.mp hk with rfl | hk2
      · exact ⟨[], k, rest, rfl, hf, hnone, by simp [lineStep, hf]⟩
      · exact absurd hf (hnone k hk2)

/-- With a filled line on the board, the line tests leave the mark of the
last filled line of `codeOrder`. -/
theorem checkLines_last (b : Board) (w : Int) (h : hasLine b) :
    ∃ pre k post, codeOrder = pre ++ k :: post ∧ lineFilled b k ∧
      (∀ l ∈ post, ¬ lineFilled b l) ∧ checkLines b w = cellAt b k.1 := by
  rw [checkLines_eq_foldl]
  obtain ⟨l, hl, hf⟩ := h
  exact foldl_lineStep_last b codeOrder w ⟨l, (mem_codeOrder l).mpr hl, hf⟩

theorem checkLines_start (b : Board) (w v : Int) (h : hasLine b) :
    checkLines b w = checkLines b v := by
  rw [checkLines_eq_foldl, checkLines_eq_foldl]
  obtain ⟨l, hl, hf⟩ := h
  exact foldl_lineStep_start b codeOrder w v ⟨l, (mem_codeOrder l).mpr hl, hf⟩

theorem lineFilled_of_lineHolds {b : Board} {l : Line} {m : Int} (h : lineHolds b l m)
    (hm : m ≠ 0) : lineFilled b l := by
  obtain ⟨h1, h2, h3⟩ := h
  exact ⟨by rw [h1]; exact hm, by rw [h1, h2], by rw [h2, h3]⟩

/-- The value of `winner` that `checkGameStatus` leaves is a fixed point of the
line tests. -/
theorem checkLines_winner_checkGameStatus (s : GameState) :
    checkLines s.board (checkGameStatus s).winner = (checkGameStatus s).winner := by
  unfold checkGameStatus
  by_cases hl : hasLine s.board
  · obtain ⟨k, _, hf, he⟩ := checkLines_mem s.board s.winner hl
    have hne : checkLines s.board s.winner ≠ 0 := by rw [he]; exact hf.1
    rw [finishStatus_winner, if_pos hne]
    exact checkLines_start s.board _ _ hl
  · rw [checkLines_of_not_hasLine s.board _ hl]

/-! ## Click positions -/

theorem BOARD_X_eq : BOARD_X = 175 := by norm_num [BOARD_X, SCR_WIDTH, BOARD_SIZE]

theorem BOARD_Y_eq : BOARD_Y = 45 := by norm_num [BOARD_Y, SCR_HEIGHT, BOARD_SIZE]

theorem CELL_SIZE_eq : CELL_SIZE = 150 := by norm_num [CELL_SIZE, BOARD_SIZE]

theorem inBoard_iff (xpos ypos : ℚ) :
    inBoard xpos ypos ↔ (175 ≤ xpos ∧ xpos ≤ 625) ∧ (45 ≤ ypos ∧ ypos ≤ 495) := by
  unfold inBoard
  rw [BOARD_X_eq, BOARD_Y_eq]
  norm_num [BOARD_SIZE]
  tauto

theorem inButton_iff (xpos ypos : ℚ) :
    inButton xpos ypos ↔ (300 ≤ xpos ∧ xpos ≤ 500) ∧ (530 ≤ ypos ∧ ypos ≤ 580) := by
  unfold inButton
  norm_num [BUTTON_X, BUTTON_Y, BUTTON_WIDTH, BUTTON_HEIGHT]
  tauto

theorem not_inButton_of_inBoard {xpos ypos : ℚ} (h : inBoard xpos ypos) :
    ¬ inButton xpos ypos := by
  rw [inBoard_iff] at h
  rw [inButton_iff]
  intro hb
  linarith [h.2.2, hb.2.1]

/-- Away from the upper edge the truncated quotient is a valid index. -/
theorem cellIndex_truncToInt (q : ℚ) (h0 : 0 ≤ q) (h3 : q < 3) :
    ∃ c, cellIndex (truncToInt q) = some c := by
  unfold truncToInt
  rw [if_pos h0]
  have hlo : (0 : Int) ≤ ⌊q⌋ := Int.floor_nonneg.mpr h0
  have hhi : ⌊q⌋ < 3 := Int.floor_lt.mpr (by exact_mod_cast h3)
  unfold cellIndex
  rw [dif_pos ⟨hlo, hhi⟩]
  exact ⟨_, rfl⟩

theorem clickCol_defined (xpos : ℚ) (h0 : 175 ≤ xpos) (h1 : xpos < 625) :
    ∃ c, cellIndex (clickCol xpos) = some c := by
  unfold clickCol
  rw [BOARD_X_eq, CELL_SIZE_eq]
  apply cellIndex_truncToInt
  · apply div_nonneg <;> linarith
  · rw [div_lt_iff₀ (by norm_num)]; linarith

theorem clickRow_defined (ypos : ℚ) (h0 : 45 ≤ ypos) (h1 : ypos < 495) :
    ∃ r, cellIndex (clickRow ypos) = some r := by
  unfold clickRow
  rw [BOARD_Y_eq, CELL_SIZE_eq]
  apply cellIndex_truncToInt
  · apply div_nonneg <;> linarith
  · rw [div_lt_iff₀ (by norm_num)]; linarith

/-! ## Rounding of the inverted y position -/

theorem roundHalfEven_ge (x : ℚ) (n : Int) (h : (n : ℚ) ≤ x) : n ≤ roundHalfEven x := by
  have hf : n ≤ ⌊x⌋ := Int.le_floor.mpr h
  unfold roundHalfEven
  split_ifs <;> omega

theorem roundHalfEven_le (x : ℚ) (n : Int) (h : x ≤ (n : ℚ)) : roundHalfEven x ≤ n := by
  have hf : ⌊x⌋ ≤ n := Int.cast_le.mp (le_trans (Int.floor_le x) h)
  have hlt : ¬ (x - ⌊x⌋ < 1 / 2) → ⌊x⌋ + 1 ≤ n := by
    intro hfrac
    have h1 : ((⌊x⌋ : Int) : ℚ) < (n : ℚ) := by linarith
    have h2 : ⌊x⌋ < n := Int.cast_lt.mp h1
    omega
  unfold roundHalfEven
  split_ifs with h1 h2 h3
  · exact hf
  · exact hlt h1
  · exact hf
  · exact hlt h1

theorem log2Fuel_eq (fuel n : Nat) (h : n ≤ fuel) : log2Fuel fuel n = Nat.log2 n := by
  induction fuel generalizing n with
  | zero =>
    have h0 : n = 0 := by omega
    subst h0
    simp [log2Fuel]
  | succ k ih =>
    rw [log2Fuel, Nat.log2]
    split_ifs with h2
    · rw [ih (n / 2) (by omega)]
    · rfl

theorem natLog2_eq (n : Nat) : natLog2 n = Nat.log2 n :=
  log2Fuel_eq n n (le_refl n)

theorem binaryExponent_eq_nine (q : ℚ) (h1 : 512 ≤ q) (h2 : q < 1024) :
    binaryExponent q = 9 := by
  have h0 : (0 : ℚ) ≤ q := by linarith
  have hlo : (512 : Int) ≤ ⌊q⌋ := Int.le_floor.mpr (by exact_mod_cast h1)
  have hhi : ⌊q⌋ < 1024 := Int.floor_lt.mpr (by exact_mod_cast h2)
  have hn0 : ⌊q⌋.toNat ≠ 0 := by omega
  have ha : 9 ≤ Nat.log2 ⌊q⌋.toNat := (Nat.le_log2 hn0).mpr (by omega)
  have hb : Nat.log2 ⌊q⌋.toNat < 10 := (Nat.log2_lt hn0).mpr (by omega)
  unfold binaryExponent
  simp only [if_pos h0]
  rw [if_pos (by linarith), natLog2_eq]
  omega

/-- Between 512 and 1024 the `double`s are the multiples of `2 ^ (-43)`. -/
theorem roundDouble_eq (q : ℚ) (h1 : 512 ≤ q) (h2 : q < 1024) :
    roundDouble q = roundHalfEven (q * 8796093022208) / 8796093022208 := by
  have hq : q ≠ 0 := by linarith
  unfold roundDouble
  rw [if_neg hq]
  simp only [binaryExponent_eq_nine q h1 h2]
  norm_num
  have e : q / (1 / 8796093022208) = q * 8796093022208 := by field_simp
  rw [e, mul_one_div]

/-- An inverted position in the y range of the restart button stays in it
when rounded. -/
theorem roundDouble_button (q : ℚ) (h1 : 530 ≤ q) (h2 : q ≤ 580) :
    530 ≤ roundDouble q ∧ roundDouble q ≤ 580 := by
  rw [roundDouble_eq q (by linarith) (by linarith)]
  have ha := roundHalfEven_ge (q * 8796093022208) 4661929301770240
    (by push_cast; linarith)
  have hb := roundHalfEven_le (q * 8796093022208) 5101733952880640
    (by push_cast; linarith)
  have ha2 : ((4661929301770240 : Int) : ℚ) ≤ roundHalfEven (q * 8796093022208) :=
    Int.cast_le.mpr ha
  have hb2 : ((roundHalfEven (q * 8796093022208) : Int) : ℚ) ≤ (5101733952880640 : Int) :=
    Int.cast_le.mpr hb
  push_cast at ha2 hb2
  constructor
  · rw [le_div_iff₀ (by norm_num)]; linarith
  · rw [div_le_iff₀ (by norm_num)]; linarith

/-- The roundings that an exact inversion misses: just above cursor y 255 the
inverted position is 345.0 (row 2), just above 105 it is 495.0 (row 3), and
just above 70 it is 530.0 (on the restart button). -/
theorem invertY_rounds :
    invertY (255 + 1 / 2 ^ 45) = 345 ∧ clickRow (invertY (255 + 1 / 2 ^ 45)) = 2 ∧
    invertY (105 + 1 / 2 ^ 46) = 495 ∧ clickRow (invertY (105 + 1 / 2 ^ 46)) = 3 ∧
    invertY (70 + 1 / 2 ^ 46) = 530 ∧ invertY 480 = 120 := by
  refine ⟨by decide!, by decide!, by decide!, by decide!, by decide!, by decide!⟩

theorem callback_eq (s : GameState) (button action : Int) (x y : ℚ) :
    mouse_button_callback s button action x y =
      if button = GLFW_MOUSE_BUTTON_LEFT ∧ action = GLFW_PRESS then
        if inButton x (invertY y) then some (resetGame s)
        else if s.gameOver then some s
        else if inBoard x (invertY y) then
          match cellIndex (clickRow (invertY y)), cellIndex (clickCol x) with
          | some r, some c => some (placeMark s r c)
          | _, _ => none
        else some s
      else some s := rfl

/-- The click handler returns a state for every event whose position (x and
the inverted y) is not on the upper or right edge of the board rectangle. -/
theorem callback_defined (s : GameState) (button action : Int) (x y : ℚ)
    (hx : x ≠ 625) (hy : invertY y ≠ 495) :
    ∃ t, mouse_button_callback s button action x y = some t := by
  rw [callback_eq]
  split_ifs with h1 h2 h3 h4
  · exact ⟨_, rfl⟩
  · exact ⟨_, rfl⟩
  · rw [inBoard_iff] at h4
    obtain ⟨c, hc⟩ := clickCol_defined x h4.1.1 (lt_of_le_of_ne h4.1.2 hx)
    obtain ⟨r, hr⟩ := clickRow_defined (invertY y) h4.2.1 (lt_of_le_of_ne h4.2.2 hy)
    rw [hr, hc]
    exact ⟨_, rfl⟩
  · exact ⟨_, rfl⟩
  · exact ⟨_, rfl⟩

/-- A left click on the board, on an in-range cell, while the game is not
over, runs `placeMark`. -/
theorem callback_board {s : GameState} {x y : ℚ} {r c : Fin 3} (hg : s.gameOver = false)
    (hboard : inBoard x (invertY y))
    (hr : cellIndex (clickRow (invertY y)) = some r)
    (hc : cellIndex (clickCol x) = some c) :
    mouse_button_callback s GLFW_MOUSE_BUTTON_LEFT GLFW_PRESS x y = some (placeMark s r c) := by
  unfold mouse_button_callback
  rw [if_pos ⟨rfl, rfl⟩]
  dsimp only
  rw [if_neg (not_inButton_of_inBoard hboard), hg, if_neg (by simp), if_pos hboard]
  simp only [hr, hc]

/-! ## Scores -/

theorem incrInt32_range (n : Int) : inInt32 (incrInt32 n) := by
  unfold inInt32 incrInt32; omega

theorem incrInt32_le (n : Int) (h : inInt32 n) : incrInt32 n ≤ n + 1 := by
  unfold inInt32 at h; unfold incrInt32; omega

theorem incrInt32_eq (n : Int) (h : inInt32 n) (hmax : n < 2147483647) :
    incrInt32 n = n + 1 := by
  unfold inInt32 at h; unfold incrInt32; omega

/-- The effect of `placeMark` on the scores, in a reachable in-progress state. -/
theorem placeMark_scores (s : GameState) (r c : Fin 3) (h : Inv s) (hg : s.gameOver = false) :
    (placeMark s r c).scoreX =
        (if (placeMark s r c).winner = 1 then incrInt32 s.scoreX else s.scoreX) ∧
    (placeMark s r c).scoreO =
        (if (placeMark s r c).winner = 2 then incrInt32 s.scoreO else s.scoreO) := by
  have hw0 : s.winner = 0 := winner_eq_zero_of_inv h hg
  by_cases hc : s.board r c = 0
  swap
  · rw [placeMark_of_occupied s r c hc, hw0]; simp
  rw [placeMark_of_empty s r c hc]
  simp only [finishStatus_winner, finishStatus_scoreX, finishStatus_scoreO]
  split_ifs <;> simp_all

/-- One event changes the scores only by the increment of a fresh win. -/
theorem callback_scores {s t : GameState} {button action : Int} {x y : ℚ} (h : Inv s)
    (hstep : mouse_button_callback s button action x y = some t) :
    t.scoreX = (if s.winner = 0 ∧ t.winner = 1 then incrInt32 s.scoreX else s.scoreX) ∧
    t.scoreO = (if s.winner = 0 ∧ t.winner = 2 then incrInt32 s.scoreO else s.scoreO) := by
  rcases callback_cases hstep with rfl | ⟨_, _, _, rfl⟩ | ⟨_, _, _, hg, _, r, c, _, _, rfl⟩
  · constructor <;> split_ifs <;> first | rfl | omega
  · simp [resetGame]
  · have hw0 : s.winner = 0 := winner_eq_zero_of_inv h hg
    simpa [hw0] using placeMark_scores s r c h hg

/-- The scores stay 32-bit values. -/
theorem callback_range {s t : GameState} {button action : Int} {x y : ℚ} (h : Inv s)
    (hr : inInt32 s.scoreX ∧ inInt32 s.scoreO)
    (hstep : mouse_button_callback s button action x y = some t) :
    inInt32 t.scoreX ∧ inInt32 t.scoreO := by
  obtain ⟨hx, ho⟩ := callback_scores h hstep
  rw [hx, ho]
  constructor
  · split_ifs
    · exact incrInt32_range _
    · exact hr.1
  · split_ifs
    · exact incrInt32_range _
    · exact hr.2

theorem Reachable.scoreRange {s : GameState} (h : Reachable s) :
    inInt32 s.scoreX ∧ inInt32 s.scoreO := by
  induction h with
  | init => exact ⟨by decide, by decide⟩
  | step button action x y hs hstep ih => exact callback_range hs.inv ih hstep

/-- One event that is not a restart click: the total score grows by at most
the slack (1 while the game is not over, 0 after). -/
theorem callback_total {s t : GameState} {button action : Int} {x y : ℚ} (h : Inv s)
    (hr : inInt32 s.scoreX ∧ inInt32 s.scoreO)
    (hnr : ¬ isRestartClick button action x y)
    (hstep : mouse_button_callback s button action x y = some t) :
    totalScore t + (if t.gameOver = true then 0 else 1) ≤
      totalScore s + (if s.gameOver = true then 0 else 1) := by
  have ht : Inv t := Inv_callback _ _ button action x y h hstep
  obtain ⟨hx, ho⟩ := callback_scores h hstep
  have hgo := ht.1
  have ex := incrInt32_le s.scoreX hr.1
  have eo := incrInt32_le s.scoreO hr.2
  rcases callback_cases hstep with rfl | ⟨hb, ha, hin, _⟩ | ⟨_, _, _, hg, _, r, c, _, _, rfl⟩
  · exact le_refl _
  · exact absurd ⟨hb, ha, hin⟩ hnr
  · have hw0 : s.winner = 0 := winner_eq_zero_of_inv h hg
    simp only [hw0, true_and] at hx ho
    unfold totalScore
    rw [hx, ho, hg]
    have hover : (placeMark s r c).winner ≠ 0 → (placeMark s r c).gameOver = true := hgo.mpr
    by_cases h1 : (placeMark s r c).winner = 1
    · rw [hover (by rw [h1]; decide), h1, if_pos rfl, if_neg (by decide), if_pos rfl,
        if_neg (by decide)]
      linarith
    · by_cases h2 : (placeMark s r c).winner = 2
      · rw [hover (by rw [h2]; decide), h2, if_neg (by decide), if_pos rfl, if_pos rfl,
          if_neg (by decide)]
        linarith
      · rw [if_neg h1, if_neg h2]
        by_cases h3 : (placeMark s r c).gameOver = true
        · rw [if_pos h3]; simp
        · rw [if_neg h3]; simp

theorem playRun_total {s t : GameState} (h : Inv s) (hr : inInt32 s.scoreX ∧ inInt32 s.scoreO)
    (hrun : PlayRun s t) :
    totalScore t + (if t.gameOver = true then 0 else 1) ≤
      totalScore s + (if s.gameOver = true then 0 else 1) := by
  induction hrun with
  | refl s => exact le_refl _
  | @step s t u button action x y hnr hstep _ ih =>
    exact le_trans
      (ih (Inv_callback _ _ button action x y h hstep) (callback_range h hr hstep))
      (callback_total h hr hnr hstep)

/-! ## Scenario states, moves and line orders -/

/-- A left click that the handler maps to the cell `(r, c)` while the game is
not over gives the state that `placeMark` gives. -/
theorem callback_placeMark_eq {s t : GameState} {x y : ℚ} (r c : Fin 3)
    (hg : s.gameOver = false) (hboard : inBoard x (invertY y))
    (hr : cellIndex (clickRow (invertY y)) = some r) (hc : cellIndex (clickCol x) = some c)
    (ht : placeMark s r c = t) :
    mouse_button_callback s GLFW_MOUSE_BUTTON_LEFT GLFW_PRESS x y = some t := by
  rw [callback_board hg hboard hr hc, ht]

/-- A left click on the restart button gives the state that `resetGame`
gives. -/
theorem callback_restart {s t : GameState} {x y : ℚ} (hin : inButton x (invertY y))
    (ht : resetGame s = t) :
    mouse_button_callback s GLFW_MOUSE_BUTTON_LEFT GLFW_PRESS x y = some t := by
  rw [callback_eq, if_pos ⟨rfl, rfl⟩, if_pos hin, ht]

theorem scenario1_step1 :
    mouse_button_callback initialState GLFW_MOUSE_BUTTON_LEFT GLFW_PRESS 250 480 =
      some oneMarkState :=
  callback_placeMark_eq 0 0 rfl (by decide!) (by decide!) (by decide!) (by decide!)

theorem scenario1_step2 :
    mouse_button_callback oneMarkState GLFW_MOUSE_BUTTON_LEFT GLFW_PRESS 400 330 =
      some scenario1Two :=
  callback_placeMark_eq 1 1 rfl (by decide!) (by decide!) (by decide!) (by decide!)

theorem scenario1_step3 :
    mouse_button_callback scenario1Two GLFW_MOUSE_BUTTON_LEFT GLFW_PRESS 400 480 =
      some scenario1Three :=
  callback_placeMark_eq 0 1 rfl (by decide!) (by decide!) (by decide!) (by decide!)

theorem scenario1_step4 :
    mouse_button_callback scenario1Three GLFW_MOUSE_BUTTON_LEFT GLFW_PRESS 550 180 =
      some scenario1Before :=
  callback_placeMark_eq 2 2 rfl (by decide!) (by decide!) (by decide!) (by decide!)

theorem scenario1_last_click :
    mouse_button_callback scenario1Before GLFW_MOUSE_BUTTON_LEFT GLFW_PRESS 550 480 =
      some scenario1State :=
  callback_placeMark_eq 0 2 rfl (by decide!) (by decide!) (by decide!) (by decide!)

theorem scenario1_restart :
    mouse_button_callback scenario1State GLFW_MOUSE_BUTTON_LEFT GLFW_PRESS 400 45 =
      some (withScores initialState 1 0) :=
  callback_restart (by decide!) rfl

theorem scenario1_run : leftClicks initialState scenario1Clicks = some scenario1State := by
  simp only [scenario1Clicks, leftClicks, scenario1_step1, scenario1_step2, scenario1_step3,
    scenario1_step4, scenario1_last_click, Option.some_bind]

theorem scenario1Before_reachable : Reachable scenario1Before :=
  Reachable.step _ _ _ _
    (Reachable.step _ _ _ _
      (Reachable.step _ _ _ _ (Reachable.step _ _ _ _ Reachable.init scenario1_step1)
        scenario1_step2)
      scenario1_step3)
    scenario1_step4

theorem scenario1_reachable : Reachable scenario1State :=
  reachable_leftClicks scenario1Clicks Reachable.init scenario1_run

theorem inProgress_iff_winner {s : GameState} (h : Inv s) : inProgress s ↔ s.winner = 0 :=
  ⟨fun hp => hp.2, fun hw => ⟨by
    cases hg : s.gameOver
    · rfl
    · exact absurd hw (h.1.mp hg), hw⟩⟩

theorem placeMark_board (s : GameState) (r c : Fin 3) (hc : s.board r c = 0) :
    (placeMark s r c).board = setCell s.board r c s.currentPlayer := by
  rw [placeMark_of_empty s r c hc, finishStatus_board]

theorem placeMark_currentPlayer (s : GameState) (r c : Fin 3) (hc : s.board r c = 0) :
    (placeMark s r c).currentPlayer = if s.currentPlayer = 1 then 2 else 1 := by
  rw [placeMark_of_empty s r c hc, finishStatus_currentPlayer]

theorem toggle_eq (p : Int) (hp : p = 1 ∨ p = 2) : (if p = 1 then (2 : Int) else 1) = 3 - p := by
  rcases hp with rfl | rfl <;> decide

theorem moveRun_marks {s u : GameState} {ms : List Int} (hrun : MoveRun s ms u)
    (hp : s.currentPlayer = 1 ∨ s.currentPlayer = 2) :
    ms = alternateMarks s.currentPlayer ms.length := by
  induction hrun with
  | nil s => rfl
  | @cons s t u ms x y r c hg hboard hr hc hcell hstep _ ih =>
    rw [callback_board hg hboard hr hc] at hstep
    have ht : t = placeMark s r c := (Option.some.inj hstep).symm
    have hmark : t.board r c = s.currentPlayer := by
      rw [ht, placeMark_board s r c hcell, setCell_apply, if_pos rfl]
    have hturn : t.currentPlayer = 3 - s.currentPlayer := by
      rw [ht, placeMark_currentPlayer s r c hcell, toggle_eq _ hp]
    have hp2 : t.currentPlayer = 1 ∨ t.currentPlayer = 2 := by
      rw [hturn]; rcases hp with h | h <;> rw [h] <;> decide
    have := ih hp2
    rw [List.length_cons, alternateMarks, hmark, ← hturn, ← this]

theorem firstFilled_none (b : Board) (order : List Line) (w : Int)
    (h : ∀ l ∈ order, ¬ lineFilled b l) : firstFilled b order w = w := by
  unfold firstFilled
  have : order.find? (fun l => decide (lineFilled b l)) = none := by
    rw [List.find?_eq_none]
    intro l hl
    simpa using h l hl
  rw [this]

theorem firstFilled_some (b : Board) (m : Int) (order : List Line) (w : Int)
    (hex : ∃ l ∈ order, lineFilled b l)
    (hall : ∀ l ∈ order, lineFilled b l → cellAt b l.1 = m) :
    firstFilled b order w = m := by
  unfold firstFilled
  cases hfind : order.find? (fun l => decide (lineFilled b l)) with
  | none =>
    rw [List.find?_eq_none] at hfind
    obtain ⟨l, hl, hf⟩ := hex
    exact absurd hf (by simpa using hfind l hl)
  | some k =>
    have hk : lineFilled b k := by simpa using List.find?_some hfind
    exact hall k (List.mem_of_find?_eq_some hfind) hk

/-- On a board all of whose filled lines carry one mark, the order of the line
tests and the choice between first and last match do not matter. -/
theorem evaluateOutcomeWith_eq (s : GameState) (m : Int) (order : List Line)
    (horder : ∀ l, l ∈ order ↔ l ∈ winLines) (firstMatch : Bool)
    (hall : ∀ l ∈ winLines, lineFilled s.board l → cellAt s.board l.1 = m) :
    evaluateOutcomeWith order firstMatch s = checkGameStatus s := by
  unfold evaluateOutcomeWith
  rw [checkGameStatus_def]
  congr 1
  have hall2 : ∀ l ∈ order, lineFilled s.board l → cellAt s.board l.1 = m :=
    fun l hl => hall l ((horder l).mp hl)
  by_cases hl : hasLine s.board
  · have hex : ∃ l ∈ order, lineFilled s.board l := by
      obtain ⟨l, hmem, hf⟩ := hl
      exact ⟨l, (horder l).mpr hmem, hf⟩
    rw [checkLines_of_hasLine s.board s.winner m hl hall,
      firstFilled_some s.board m order s.winner hex hall2,
      foldl_lineStep_some s.board m order s.winner hex hall2]
    simp
  · have hnone : ∀ l ∈ order, ¬ lineFilled s.board l :=
      fun l hmem hf => hl ⟨l, (horder l).mp hmem, hf⟩
    rw [checkLines_of_not_hasLine s.board s.winner hl,
      firstFilled_none s.board order s.winner hnone,
      foldl_lineStep_none s.board order s.winner hnone]
    simp

/-! ## The winner and the turn -/

/-- After `placeMark` in a reachable state that is not over, a winner 1 or 2
is the player who moved: the turn is with the other one. -/
theorem placeMark_turn (s : GameState) (r c : Fin 3) (h : Inv s) (hg : s.gameOver = false)
    (hw : (placeMark s r c).winner = 1 ∨ (placeMark s r c).winner = 2) :
    (placeMark s r c).currentPlayer = 3 - (placeMark s r c).winner := by
  have hw0 : s.winner = 0 := winner_eq_zero_of_inv h hg
  by_cases hc : s.board r c = 0
  swap
  · rw [placeMark_of_occupied s r c hc, hw0] at hw
    rcases hw with hw | hw <;> cases hw
  have hno : ¬ hasLine s.board := (h.2.1.mp hw0).2
  obtain ⟨ha, hb, _⟩ := checkLines_after_move s.board r c s.currentPlayer s.winner hno
  rw [placeMark_currentPlayer s r c hc]
  rw [placeMark_of_empty s r c hc] at hw ⊢
  by_cases hl : hasLine (setCell s.board r c s.currentPlayer)
  · obtain ⟨hwin, hp⟩ := ha hl
    rw [hwin, finishStatus_winner, if_pos hp]
    exact toggle_eq _ h.2.2.2
  · rw [hb hl, hw0, finishStatus_winner, if_neg (by simp)] at hw
    split_ifs at hw <;> rcases hw with hw | hw <;> cases hw

theorem callback_turn {s t : GameState} {button action : Int} {x y : ℚ} (h : Inv s)
    (hturn : s.winner = 1 ∨ s.winner = 2 → s.currentPlayer = 3 - s.winner)
    (hstep : mouse_button_callback s button action x y = some t)
    (hw : t.winner = 1 ∨ t.winner = 2) : t.currentPlayer = 3 - t.winner := by
  rcases callback_cases hstep with rfl | ⟨_, _, _, rfl⟩ | ⟨_, _, _, hg, _, r, c, _, _, rfl⟩
  · exact hturn hw
  · rcases hw with hw | hw <;> cases hw
  · exact placeMark_turn s r c h hg hw

theorem Reachable.turn {s : GameState} (h : Reachable s)
    (hw : s.winner = 1 ∨ s.winner = 2) : s.currentPlayer = 3 - s.winner := by
  induction h with
  | init => rcases hw with hw | hw <;> cases hw
  | step button action x y hs hstep ih => exact callback_turn hs.inv ih hstep hw

/-! ## Reaching the largest score -/

theorem finishStatus_withScores (s : GameState) (a b w : Int) :
    finishStatus (withScores s a b) w =
      withScores (finishStatus s w) (if w = 1 then incrInt32 a else a)
        (if w = 2 then incrInt32 b else b) := by
  unfold finishStatus withScores
  split_ifs <;> simp_all

theorem placeMark_withScores (s : GameState) (a b : Int) (r c : Fin 3) (hw0 : s.winner = 0) :
    placeMark (withScores s a b) r c =
      withScores (placeMark s r c)
        (if (placeMark s r c).winner = 1 then incrInt32 a else a)
        (if (placeMark s r c).winner = 2 then incrInt32 b else b) := by
  by_cases hc : s.board r c = 0
  swap
  · rw [placeMark_of_occupied s r c hc, placeMark_of_occupied (withScores s a b) r c hc, hw0]
    simp
  rw [placeMark_of_empty s r c hc, placeMark_of_empty (withScores s a b) r c hc]
  have e := finishStatus_withScores
    { s with
      board := setCell s.board r c s.currentPlayer
      currentPlayer := if s.currentPlayer = 1 then 2 else 1 } a b
    (checkLines (setCell s.board r c s.currentPlayer) s.winner)
  have e2 : (withScores s a b).winner = s.winner := rfl
  have e3 : (withScores s a b).board = s.board := rfl
  have e4 : (withScores s a b).currentPlayer = s.currentPlayer := rfl
  rw [e2, e3, e4]
  refine Eq.trans (Eq.trans rfl e) ?_
  rw [finishStatus_winner]
  congr 1
  · split_ifs <;> simp_all
  · split_ifs <;> simp_all

/-- The game part of an event's result does not depend on the scores, and the
scores follow the winner. -/
theorem callback_withScores {s t : GameState} {button action : Int} {x y : ℚ} (a b : Int)
    (h : Inv s) (hstep : mouse_button_callback s button action x y = some t) :
    mouse_button_callback (withScores s a b) button action x y =
      some (withScores t (if s.winner = 0 ∧ t.winner = 1 then incrInt32 a else a)
        (if s.winner = 0 ∧ t.winner = 2 then incrInt32 b else b)) := by
  have hsame : ¬ (s.winner = 0 ∧ s.winner = 1) ∧ ¬ (s.winner = 0 ∧ s.winner = 2) :=
    ⟨fun hh => by omega, fun hh => by omega⟩
  rw [callback_eq] at hstep ⊢
  have eg : (withScores s a b).gameOver = s.gameOver := rfl
  rw [eg]
  by_cases h1 : button = GLFW_MOUSE_BUTTON_LEFT ∧ action = GLFW_PRESS
  swap
  · rw [if_neg h1] at hstep ⊢
    cases hstep
    rw [if_neg hsame.1, if_neg hsame.2]
  rw [if_pos h1] at hstep ⊢
  by_cases h2 : inButton x (invertY y)
  · rw [if_pos h2] at hstep ⊢
    cases hstep
    have e0 : (resetGame s).winner = 0 := rfl
    rw [e0, if_neg (fun hh => absurd hh.2 (by decide)),
      if_neg (fun hh => absurd hh.2 (by decide))]
    rfl
  rw [if_neg h2] at hstep ⊢
  cases hg : s.gameOver
  swap
  · rw [hg, if_pos rfl] at hstep
    rw [if_pos rfl]
    cases hstep
    rw [if_neg hsame.1, if_neg hsame.2]
  rw [hg] at hstep
  simp only [Bool.false_eq_true, if_false] at hstep ⊢
  by_cases h4 : inBoard x (invertY y)
  swap
  · rw [if_neg h4] at hstep ⊢
    cases hstep
    rw [if_neg hsame.1, if_neg hsame.2]
  rw [if_pos h4] at hstep ⊢
  have hw0 : s.winner = 0 := winner_eq_zero_of_inv h hg
  cases hr : cellIndex (clickRow (invertY y)) with
  | none => simp [hr] at hstep
  | some r =>
    cases hcol : cellIndex (clickCol x) with
    | none => simp [hr, hcol] at hstep
    | some c =>
      simp only [hr, hcol] at hstep ⊢
      cases hstep
      rw [placeMark_withScores s a b r c hw0]
      simp [hw0]

theorem reachable_withScores_step {s t : GameState} {x y : ℚ} (a b : Int)
    (hs : Reachable s) (hsa : Reachable (withScores s a b))
    (hstep : mouse_button_callback s GLFW_MOUSE_BUTTON_LEFT GLFW_PRESS x y = some t) :
    Reachable (withScores t (if s.winner = 0 ∧ t.winner = 1 then incrInt32 a else a)
      (if s.winner = 0 ∧ t.winner = 2 then incrInt32 b else b)) :=
  Reachable.step _ _ x y hsa (callback_withScores a b hs.inv hstep)

/-- The four opening moves of scenario 1 from an empty board with any scores. -/
theorem reachable_before_withScores (a b : Int)
    (h : Reachable (withScores initialState a b)) :
    Reachable (withScores scenario1Before a b) := by
  have r1 := Reachable.step _ _ _ _ Reachable.init scenario1_step1
  have r2 := Reachable.step _ _ _ _ r1 scenario1_step2
  have r3 := Reachable.step _ _ _ _ r2 scenario1_step3
  have q1 := reachable_withScores_step a b Reachable.init h scenario1_step1
  rw [if_neg (by decide), if_neg (by decide)] at q1
  have q2 := reachable_withScores_step a b r1 q1 scenario1_step2
  rw [if_neg (by decide), if_neg (by decide)] at q2
  have q3 := reachable_withScores_step a b r2 q2 scenario1_step3
  rw [if_neg (by decide), if_neg (by decide)] at q3
  have q4 := reachable_withScores_step a b r3 q3 scenario1_step4
  rw [if_neg (by decide), if_neg (by decide)] at q4
  exact q4

/-- The last move of scenario 1 with any scores: X wins and `scoreX` is
incremented. -/
theorem last_click_withScores (a b : Int) :
    mouse_button_callback (withScores scenario1Before a b) GLFW_MOUSE_BUTTON_LEFT GLFW_PRESS
      550 480 = some (withScores scenario1State (incrInt32 a) b) := by
  have e := callback_withScores a b scenario1Before_reachable.inv scenario1_last_click
  rw [if_pos (by decide), if_neg (by decide)] at e
  exact e

/-- One more game won by X, then a restart. -/
theorem reachable_next_score (a b : Int) (h : Reachable (withScores initialState a b)) :
    Reachable (withScores initialState (incrInt32 a) b) := by
  have q5 := Reachable.step _ _ _ _ (reachable_before_withScores a b h)
    (last_click_withScores a b)
  have q6 := reachable_withScores_step (incrInt32 a) b scenario1_reachable q5 scenario1_restart
  rw [if_neg (by decide), if_neg (by decide)] at q6
  exact q6

theorem reachable_scoreX (n : Nat) (hn : n ≤ 2147483647) :
    Reachable (withScores initialState (n : Int) 0) := by
  induction n with
  | zero => exact Reachable.init
  | succ k ih =>
    have hk := reachable_next_score (k : Int) 0 (ih (by omega))
    rw [incrInt32_eq (k : Int) ⟨by omega, by omega⟩ (by omega)] at hk
    exact_mod_cast hk

theorem maxScoreBefore_reachable : Reachable maxScoreBefore :=
  reachable_before_withScores 2147483647 0 (reachable_scoreX 2147483647 (le_refl _))

/-! ## Claims -/

/-- C1: in every state reachable by clicks the game is in progress
(`gameOver == false` and `winner == 0`) exactly when the board has an empty
cell and none of the 8 lines holds three equal non-empty marks. -/
theorem inProgress_iff_of_reachable (s : GameState) (hs : Reachable s) :
    (s.gameOver = false ∧ s.winner = 0) ↔ (hasEmpty s.board ∧ ¬ hasLine s.board) := by
  have h := hs.inv
  rw [← h.2.1]
  constructor
  · exact fun hw => hw.2
  · intro hw
    refine ⟨?_, hw⟩
    cases hg : s.gameOver
    · rfl
    · exact absurd hw (h.1.mp hg)

/-- C1 at the state after the five moves of scenario 1, which is over. -/
theorem inProgress_iff_of_reachable_witness :
    Reachable scenario1State ∧
      ((scenario1State.gameOver = false ∧ scenario1State.winner = 0) ↔
        (hasEmpty scenario1State.board ∧ ¬ hasLine scenario1State.board)) :=
  ⟨scenario1_reachable, inProgress_iff_of_reachable scenario1State scenario1_reachable⟩

/-- C2 (as stated, refuted): a board with row 0 filled by X and row 1 filled by
O has the three cells of row 0 equal to X, yet `checkGameStatus` ends with
`winner == 2`. -/
theorem line_winner_counterexample :
    ¬ ∀ l ∈ winLines, ∀ m : Int, m = 1 ∨ m = 2 → ∀ s : GameState,
        lineHolds s.board l m → s.winner = 0 → s.gameOver = false →
          (checkGameStatus s).gameOver = true ∧ (checkGameStatus s).winner = m := by
  intro h
  have h2 := (h (rowLine 0) (by decide) 1 (Or.inl rfl) twoLineState (by decide) rfl rfl).2
  revert h2
  decide

/-- C2 (amended): for each of the 8 lines, each mark `m` in {X, O} and every
board whose three cells on that line hold `m`, `checkGameStatus` (run from
`winner == 0`, `gameOver == false` or from any other values of them) ends with
`gameOver == true` and with `winner` the mark of the last line of three equal
non-empty marks in the order row 0, column 0, row 1, column 1, row 2,
column 2, diagonal, anti-diagonal (`codeOrder`); `winner == m` when every
line of three equal non-empty marks on the board holds `m`. -/
theorem checkGameStatus_line_winner (l : Line) (hl : l ∈ winLines) (m : Int)
    (hm : m = 1 ∨ m = 2) (s : GameState) (hline : lineHolds s.board l m) :
    (checkGameStatus s).gameOver = true ∧
    (∃ pre k post, codeOrder = pre ++ k :: post ∧ lineFilled s.board k ∧
      (∀ j ∈ post, ¬ lineFilled s.board j) ∧
      (checkGameStatus s).winner = cellAt s.board k.1) ∧
    ((∀ k ∈ winLines, lineFilled s.board k → cellAt s.board k.1 = m) →
      (checkGameStatus s).winner = m) := by
  have hm0 : m ≠ 0 := by rcases hm with rfl | rfl <;> decide
  have hfilled : lineFilled s.board l := lineFilled_of_lineHolds hline hm0
  have hhas : hasLine s.board := ⟨l, hl, hfilled⟩
  obtain ⟨pre, k, post, hsplit, hkf, hpost, he⟩ := checkLines_last s.board s.winner hhas
  have hk : k ∈ winLines := (mem_codeOrder k).mp (by rw [hsplit]; simp)
  have hne : checkLines s.board s.winner ≠ 0 := by rw [he]; exact hkf.1
  unfold checkGameStatus
  refine ⟨?_, ⟨pre, k, post, hsplit, hkf, hpost, ?_⟩, ?_⟩
  · rw [finishStatus_gameOver, if_pos hne]
  · rw [finishStatus_winner, if_pos hne]; exact he
  · intro hall
    rw [finishStatus_winner, if_pos hne, he]
    exact hall k hk hkf

/-- C2 at row 0 filled by X on the board X X X / O O _ / _ _ _, where no other
line is filled: `checkGameStatus` ends with `gameOver == true`, `winner == 1`. -/
theorem checkGameStatus_line_winner_witness :
    rowLine 0 ∈ winLines ∧ lineHolds rowXState.board (rowLine 0) 1 ∧
    (checkGameStatus rowXState).gameOver = true ∧ (checkGameStatus rowXState).winner = 1 :=
  ⟨by decide, by decide,
    (checkGameStatus_line_winner (rowLine 0) (by decide) 1 (Or.inl rfl) rowXState
      (by decide)).1,
    (checkGameStatus_line_winner (rowLine 0) (by decide) 1 (Or.inl rfl) rowXState
      (by decide)).2.2 (by decide!)⟩

/-- C3 (as stated, refuted): on a board with row 0 filled by X the first
`checkGameStatus` leaves `scoreX == 1` and the second one `scoreX == 2`. -/
theorem second_call_increments_counterexample :
    ¬ ∀ s : GameState,
        (checkGameStatus (checkGameStatus s)).winner = (checkGameStatus s).winner ∧
        (checkGameStatus (checkGameStatus s)).gameOver = (checkGameStatus s).gameOver ∧
        (checkGameStatus (checkGameStatus s)).scoreX = (checkGameStatus s).scoreX ∧
        (checkGameStatus (checkGameStatus s)).scoreO = (checkGameStatus s).scoreO := by
  intro h
  have h2 := (h rowXState).2.2.1
  revert h2
  decide

/-- C3 (amended): for every state, running `checkGameStatus` twice leaves the
same `winner`, `gameOver`, board and `currentPlayer` as running it once; the
second call increments `scoreX` again exactly when the first call ended with
`winner == 1`, and `scoreO` again exactly when it ended with `winner == 2`.
The increment is the 32-bit `++`: plus 1 below `2147483647`, and from
`2147483647` to `-2147483648`. -/
theorem checkGameStatus_twice (s : GameState) :
    (checkGameStatus (checkGameStatus s)).winner = (checkGameStatus s).winner ∧
    (checkGameStatus (checkGameStatus s)).gameOver = (checkGameStatus s).gameOver ∧
    (checkGameStatus (checkGameStatus s)).board = (checkGameStatus s).board ∧
    (checkGameStatus (checkGameStatus s)).currentPlayer = (checkGameStatus s).currentPlayer ∧
    (checkGameStatus (checkGameStatus s)).scoreX =
      (if (checkGameStatus s).winner = 1 then incrInt32 (checkGameStatus s).scoreX
        else (checkGameStatus s).scoreX) ∧
    (checkGameStatus (checkGameStatus s)).scoreO =
      (if (checkGameStatus s).winner = 2 then incrInt32 (checkGameStatus s).scoreO
        else (checkGameStatus s).scoreO) ∧
    (∀ n : Int, inInt32 n → n < 2147483647 → incrInt32 n = n + 1) ∧
    incrInt32 2147483647 = -2147483648 := by
  have hb : (checkGameStatus s).board = s.board := finishStatus_board _ _
  have hfix := checkLines_winner_checkGameStatus s
  have h2 : checkGameStatus (checkGameStatus s) =
      finishStatus (checkGameStatus s) (checkGameStatus s).winner := by
    rw [checkGameStatus_def (checkGameStatus s), hb, hfix]
  have hw1 : (checkGameStatus s).winner = 0 → isDraw s.board = false := by
    unfold checkGameStatus
    rw [finishStatus_winner]
    split_ifs <;> simp_all
  have hg1 : (checkGameStatus s).winner ≠ 0 → (checkGameStatus s).gameOver = true := by
    unfold checkGameStatus
    rw [finishStatus_winner, finishStatus_gameOver]
    split_ifs <;> simp_all
  rw [h2]
  refine ⟨?_, ?_, finishStatus_board _ _, finishStatus_currentPlayer _ _,
    finishStatus_scoreX _ _, finishStatus_scoreO _ _, incrInt32_eq, by decide⟩
  · rw [finishStatus_winner, hb]
    by_cases h0 : (checkGameStatus s).winner = 0
    · rw [if_neg (by simpa using h0), hw1 h0, h0]; rfl
    · rw [if_pos h0]
  · rw [finishStatus_gameOver, hb]
    by_cases h0 : (checkGameStatus s).winner = 0
    · rw [if_neg (by simpa using h0), hw1 h0]; rfl
    · rw [if_pos h0, hg1 h0]

/-- C4: a left click whose position, x and the inverted y as the handler
computes it (`invertY y`), is inside the board rectangle and outside the
restart button leaves the whole state as it was when the game is over or the
targeted cell is already non-empty. -/
theorem click_ignored (s : GameState) (x y : ℚ) (hboard : inBoard x (invertY y))
    (hbutton : ¬ inButton x (invertY y))
    (h : s.gameOver = true ∨
      ∃ r c, cellIndex (clickRow (invertY y)) = some r ∧
        cellIndex (clickCol x) = some c ∧ s.board r c ≠ 0) :
    mouse_button_callback s GLFW_MOUSE_BUTTON_LEFT GLFW_PRESS x y = some s := by
  unfold mouse_button_callback
  rw [if_pos ⟨rfl, rfl⟩]
  dsimp only
  rw [if_neg hbutton]
  cases hg : s.gameOver
  swap
  · rw [if_pos rfl]
  rw [if_neg (by simp), if_pos hboard]
  rcases h with hover | ⟨r, c, hr, hc, hcell⟩
  · rw [hg] at hover; cases hover
  · simp only [hr, hc]
    rw [placeMark_of_occupied s r c hcell]

/-- C4 at a click at cursor position (400, 255 + 2^-45), whose inverted y
rounds to 345.0 and so targets the cell (2,1), which already holds an X. -/
theorem click_ignored_witness :
    inBoard 400 (invertY (255 + 1 / 2 ^ 45)) ∧ ¬ inButton 400 (invertY (255 + 1 / 2 ^ 45)) ∧
      cellIndex (clickRow (invertY (255 + 1 / 2 ^ 45))) = some 2 ∧
      cellIndex (clickCol 400) = some 1 ∧ rowTwoMarkState.board 2 1 ≠ 0 ∧
      mouse_button_callback rowTwoMarkState GLFW_MOUSE_BUTTON_LEFT GLFW_PRESS 400
        (255 + 1 / 2 ^ 45) = some rowTwoMarkState :=
  ⟨by decide!, by decide!, by decide!, by decide!, by decide,
    click_ignored rowTwoMarkState 400 (255 + 1 / 2 ^ 45) (by decide!) (by decide!)
      (Or.inr ⟨2, 1, by decide!, by decide!, by decide⟩)⟩

/-- C5 (as stated, refuted): in the reachable state X X _ / _ O _ / _ _ O with
`scoreX == 2147483647`, the click that fills row 0 makes `winner == 1` and
leaves `scoreX == -2147483648`, not `scoreX + 1`. -/
theorem score_increment_counterexample :
    ¬ ∀ s : GameState, Reachable s → ∀ (button action : Int) (x y : ℚ) (t : GameState),
        mouse_button_callback s button action x y = some t →
          (inProgress s ∧ t.winner = 1 → t.scoreX = s.scoreX + 1 ∧ t.scoreO = s.scoreO) := by
  intro h
  have h1 := (h maxScoreBefore maxScoreBefore_reachable GLFW_MOUSE_BUTTON_LEFT GLFW_PRESS
    550 480 _ (last_click_withScores 2147483647 0) ⟨⟨rfl, rfl⟩, rfl⟩).1
  revert h1
  decide

/-- C5 (amended): in a reachable state, an event that the handler handles
applies the 32-bit increment to `scoreX` (and leaves `scoreO`) when it turns
the outcome from in-progress into `winner == 1`, applies it to `scoreO` (and
leaves `scoreX`) when it turns it into `winner == 2`, and leaves both scores
alone in every other case; the increment is plus 1 unless the score is
`2147483647`; the event is handled whenever x is not 625 and the inverted y
is not 495; and over any run of events without a restart click the total of
the two scores grows by at most 1. -/
theorem score_changes_only_on_win (s : GameState) (hs : Reachable s) :
    (∀ (button action : Int) (x y : ℚ) (t : GameState),
      mouse_button_callback s button action x y = some t →
        (inProgress s ∧ t.winner = 1 →
          t.scoreX = incrInt32 s.scoreX ∧ t.scoreO = s.scoreO ∧
          (s.scoreX ≠ 2147483647 → t.scoreX = s.scoreX + 1) ∧
          (s.scoreX = 2147483647 → t.scoreX = -2147483648)) ∧
        (inProgress s ∧ t.winner = 2 →
          t.scoreO = incrInt32 s.scoreO ∧ t.scoreX = s.scoreX ∧
          (s.scoreO ≠ 2147483647 → t.scoreO = s.scoreO + 1) ∧
          (s.scoreO = 2147483647 → t.scoreO = -2147483648)) ∧
        (¬ (inProgress s ∧ (t.winner = 1 ∨ t.winner = 2)) →
          t.scoreX = s.scoreX ∧ t.scoreO = s.scoreO)) ∧
    (∀ (button action : Int) (x y : ℚ), x ≠ 625 → invertY y ≠ 495 →
      ∃ t, mouse_button_callback s button action x y = some t) ∧
    (∀ t, PlayRun s t → totalScore t ≤ totalScore s + 1) := by
  have h := hs.inv
  have hrange := hs.scoreRange
  refine ⟨?_, fun button action x y hx hy => callback_defined s button action x y hx hy, ?_⟩
  · intro button action x y t hstep
    obtain ⟨hx, ho⟩ := callback_scores h hstep
    have hip := inProgress_iff_winner h
    refine ⟨?_, ?_, ?_⟩
    · intro hw
      have h1 : s.winner = 0 ∧ t.winner = 1 := ⟨hip.mp hw.1, hw.2⟩
      have h2 : ¬ (s.winner = 0 ∧ t.winner = 2) := fun h2 => by
        have := hw.2.symm.trans h2.2
        revert this; decide
      rw [hx, ho, if_pos h1, if_neg h2]
      exact ⟨rfl, rfl, fun hmax => incrInt32_eq _ hrange.1
        (lt_of_le_of_ne hrange.1.2 hmax), fun hmax => by rw [hmax]; decide⟩
    · intro hw
      have h2 : s.winner = 0 ∧ t.winner = 2 := ⟨hip.mp hw.1, hw.2⟩
      have h1 : ¬ (s.winner = 0 ∧ t.winner = 1) := fun h1 => by
        have := hw.2.symm.trans h1.2
        revert this; decide
      rw [hx, ho, if_pos h2, if_neg h1]
      exact ⟨rfl, rfl, fun hmax => incrInt32_eq _ hrange.2
        (lt_of_le_of_ne hrange.2.2 hmax), fun hmax => by rw [hmax]; decide⟩
    · intro hn
      have h1 : ¬ (s.winner = 0 ∧ t.winner = 1) := fun h1 =>
        hn ⟨hip.mpr h1.1, Or.inl h1.2⟩
      have h2 : ¬ (s.winner = 0 ∧ t.winner = 2) := fun h2 =>
        hn ⟨hip.mpr h2.1, Or.inr h2.2⟩
      rw [hx, ho, if_neg h1, if_neg h2]
      exact ⟨rfl, rfl⟩
  · intro t hrun
    have k2 := playRun_total h hrange hrun
    have e1 : (0 : Int) ≤ (if t.gameOver = true then 0 else 1) := by split_ifs <;> decide
    have e2 : (if s.gameOver = true then 0 else 1) ≤ (1 : Int) := by split_ifs <;> decide
    linarith

/-- C5 at the last move of scenario 1: the click that fills row 0 with X makes
`scoreX` go from 0 to 1 and leaves `scoreO`. -/
theorem score_changes_only_on_win_witness :
    Reachable scenario1Before ∧
      scenario1State.scoreX = scenario1Before.scoreX + 1 ∧
      scenario1State.scoreO = scenario1Before.scoreO :=
  ⟨scenario1Before_reachable,
    (((score_changes_only_on_win scenario1Before scenario1Before_reachable).1
      GLFW_MOUSE_BUTTON_LEFT GLFW_PRESS 550 480 scenario1State scenario1_last_click).1
      ⟨⟨rfl, rfl⟩, rfl⟩).2.2.1 (by decide),
    (((score_changes_only_on_win scenario1Before scenario1Before_reachable).1
      GLFW_MOUSE_BUTTON_LEFT GLFW_PRESS 550 480 scenario1State scenario1_last_click).1
      ⟨⟨rfl, rfl⟩, rfl⟩).2.1⟩

/-- C6: from every state, a left click whose position (with y inverted) lies
in the restart-button rectangle, `300 <= x <= 500` and `530 <= 600 - y <= 580`,
gives a state with all nine cells empty, X to move, `gameOver == false`,
`winner == 0` and both scores as before. -/
theorem restart_click (s : GameState) (x y : ℚ) (hx : 300 ≤ x ∧ x ≤ 500)
    (hy : 530 ≤ 600 - y ∧ 600 - y ≤ 580) :
    ∃ t, mouse_button_callback s GLFW_MOUSE_BUTTON_LEFT GLFW_PRESS x y = some t ∧
      (∀ i j, t.board i j = 0) ∧ t.currentPlayer = 1 ∧ t.gameOver = false ∧ t.winner = 0 ∧
      t.scoreX = s.scoreX ∧ t.scoreO = s.scoreO := by
  have hin : inButton x (invertY y) := by
    rw [inButton_iff]
    exact ⟨hx, roundDouble_button (SCR_HEIGHT - y) hy.1 hy.2⟩
  refine ⟨resetGame s, ?_, fun _ _ => rfl, rfl, rfl, rfl, rfl, rfl⟩
  rw [callback_eq, if_pos ⟨rfl, rfl⟩, if_pos hin]

/-- C6 at a click in the middle of the restart button after the game of
scenario 1 has ended. -/
theorem restart_click_witness :
    ((300 : ℚ) ≤ 400 ∧ (400 : ℚ) ≤ 500) ∧ ((530 : ℚ) ≤ 600 - 45 ∧ (600 : ℚ) - 45 ≤ 580) ∧
    ∃ t, mouse_button_callback scenario1State GLFW_MOUSE_BUTTON_LEFT GLFW_PRESS 400 45 =
        some t ∧
      (∀ i j, t.board i j = 0) ∧ t.currentPlayer = 1 ∧ t.gameOver = false ∧ t.winner = 0 ∧
      t.scoreX = scenario1State.scoreX ∧ t.scoreO = scenario1State.scoreO :=
  ⟨by norm_num, by norm_num, restart_click scenario1State 400 45 (by norm_num) (by norm_num)⟩

/-- C7: in a state that is not over, with X or O to move, a left click that
the handler maps to an empty cell `(r, c)` of the board (from x and the
inverted y it computes, `invertY y`) is handled, changes the board in exactly
that cell, which now holds the mark of the player whose turn it was, and hands
the turn to the other player (X to O, O to X); along any run of accepted moves
the marks placed alternate, starting with the player to move. -/
theorem accepted_move (s : GameState) (hp : s.currentPlayer = 1 ∨ s.currentPlayer = 2) :
    (∀ (x y : ℚ) (r c : Fin 3), s.gameOver = false → inBoard x (invertY y) →
      cellIndex (clickRow (invertY y)) = some r → cellIndex (clickCol x) = some c →
      s.board r c = 0 →
      ∃ t, mouse_button_callback s GLFW_MOUSE_BUTTON_LEFT GLFW_PRESS x y = some t ∧
        t.board r c = s.currentPlayer ∧ t.board r c ≠ s.board r c ∧
        (∀ i j, (i, j) ≠ (r, c) → t.board i j = s.board i j) ∧
        (s.currentPlayer = 1 → t.currentPlayer = 2) ∧
        (s.currentPlayer = 2 → t.currentPlayer = 1)) ∧
    (∀ ms u, MoveRun s ms u → ms = alternateMarks s.currentPlayer ms.length) := by
  refine ⟨?_, fun ms u hrun => moveRun_marks hrun hp⟩
  intro x y r c hg hboard hr hc hcell
  refine ⟨placeMark s r c, callback_board hg hboard hr hc, ?_, ?_, ?_, ?_, ?_⟩
  · rw [placeMark_board s r c hcell, setCell_apply, if_pos rfl]
  · rw [placeMark_board s r c hcell, setCell_apply, if_pos rfl, hcell]
    rcases hp with h | h <;> rw [h] <;> decide
  · intro i j hij
    rw [placeMark_board s r c hcell, setCell_apply, if_neg hij]
  · intro h1
    rw [placeMark_currentPlayer s r c hcell, if_pos h1]
  · intro h2
    rw [placeMark_currentPlayer s r c hcell, if_neg (by rw [h2]; decide)]

/-- C7 from the initial state: the click at cursor position
(400, 255 + 2^-45), whose inverted y rounds to 345.0, places an X in the cell
(2,1) and gives the turn to O; and the two moves centre, (0,0) place X then
O. -/
theorem accepted_move_witness :
    (initialState.currentPlayer = 1 ∨ initialState.currentPlayer = 2) ∧
    (∃ t, mouse_button_callback initialState GLFW_MOUSE_BUTTON_LEFT GLFW_PRESS 400
        (255 + 1 / 2 ^ 45) = some t ∧
      t.board 2 1 = initialState.currentPlayer ∧ t.board 2 1 ≠ initialState.board 2 1 ∧
      (∀ i j, (i, j) ≠ ((2 : Fin 3), (1 : Fin 3)) → t.board i j = initialState.board i j) ∧
      (initialState.currentPlayer = 1 → t.currentPlayer = 2) ∧
      (initialState.currentPlayer = 2 → t.currentPlayer = 1)) ∧
    [centreMarkState.board 1 1, twoMarkState.board 0 0] = alternateMarks 1 2 :=
  ⟨Or.inl rfl,
    (accepted_move initialState (Or.inl rfl)).1 400 (255 + 1 / 2 ^ 45) 2 1 rfl (by decide!)
      (by decide!) (by decide!) rfl,
    (accepted_move initialState (Or.inl rfl)).2 _ twoMarkState
      (MoveRun.cons 400 330 1 1 rfl (by decide!) (by decide!) (by decide!) rfl
        (callback_placeMark_eq 1 1 rfl (by decide!) (by decide!) (by decide!) (by decide!))
        (MoveRun.cons 250 480 0 0 rfl (by decide!) (by decide!) (by decide!) rfl
          (callback_placeMark_eq 0 0 rfl (by decide!) (by decide!) (by decide!) (by decide!))
          (MoveRun.nil twoMarkState)))⟩

/-- C8 (the code at the failing input): a left click at cursor position
(625, 300) passes the board test, the column computed is 3, which is not an
index of `board[row]`, and the handler has no defined result; likewise the
row computed for the inverted y position 495 is 3. -/
theorem board_edge_click_out_of_range :
    inBoard 625 (SCR_HEIGHT - 300) ∧ clickCol 625 = 3 ∧ cellIndex (clickCol 625) = none ∧
    mouse_button_callback initialState GLFW_MOUSE_BUTTON_LEFT GLFW_PRESS 625 300 = none ∧
    inBoard 400 (SCR_HEIGHT - 105) ∧ clickRow (SCR_HEIGHT - 105) = 3 ∧
    mouse_button_callback initialState GLFW_MOUSE_BUTTON_LEFT GLFW_PRESS 400 105 = none := by
  refine ⟨by decide!, by decide!, by decide!, ?_, by decide!, by decide!, ?_⟩
  · exact Option.eq_none_iff_forall_not_mem.mpr (fun t ht => by
      have : (mouse_button_callback initialState GLFW_MOUSE_BUTTON_LEFT GLFW_PRESS 625
        300).isSome = false := by decide!
      rw [Option.mem_def.mp ht] at this
      cases this)
  · exact Option.eq_none_iff_forall_not_mem.mpr (fun t ht => by
      have : (mouse_button_callback initialState GLFW_MOUSE_BUTTON_LEFT GLFW_PRESS 400
        105).isSome = false := by decide!
      rw [Option.mem_def.mp ht] at this
      cases this)

/-- C9: on a board with no empty cell and no line of three equal marks,
`checkGameStatus` run from `winner == 0` ends with `gameOver == true` and
`winner == 3` and leaves both scores unchanged. -/
theorem checkGameStatus_draw (s : GameState) (hfull : ∀ i j, s.board i j ≠ 0)
    (hno : ¬ hasLine s.board) (hw : s.winner = 0) :
    (checkGameStatus s).gameOver = true ∧ (checkGameStatus s).winner = 3 ∧
    (checkGameStatus s).scoreX = s.scoreX ∧ (checkGameStatus s).scoreO = s.scoreO := by
  have hdraw : isDraw s.board = true := by
    rw [isDraw_iff]
    rintro ⟨i, j, h⟩
    exact hfull i j h
  rw [checkGameStatus_def, checkLines_of_not_hasLine s.board s.winner hno, hw]
  simp [finishStatus_gameOver, finishStatus_winner, finishStatus_scoreX, finishStatus_scoreO,
    hdraw]

/-- C9 on the board X O X / X O O / O X X. -/
theorem checkGameStatus_draw_witness :
    (∀ i j, drawState.board i j ≠ 0) ∧ ¬ hasLine drawState.board ∧
    (checkGameStatus drawState).gameOver = true ∧ (checkGameStatus drawState).winner = 3 ∧
    (checkGameStatus drawState).scoreX = drawState.scoreX ∧
    (checkGameStatus drawState).scoreO = drawState.scoreO :=
  ⟨by decide, by unfold hasLine; decide,
    checkGameStatus_draw drawState (by decide) (by unfold hasLine; decide) rfl⟩

/-- C10: on the board of every reachable state, whatever the values of the
other globals, evaluating the outcome with the 8 lines tested in any order,
the first or the last filled line deciding, gives the same state (winner,
gameOver, scores) as `checkGameStatus`. -/
theorem line_order_irrelevant (s : GameState) (hs : Reachable s) (s0 : GameState)
    (hb : s0.board = s.board) (order : List Line)
    (horder : ∀ l, l ∈ order ↔ l ∈ winLines) (firstMatch : Bool) :
    evaluateOutcomeWith order firstMatch s0 = checkGameStatus s0 := by
  apply evaluateOutcomeWith_eq s0 s.winner order horder firstMatch
  rw [hb]
  exact hs.inv.2.2.1

/-- C10 on the board of scenario 1 as the last click evaluates it: the lines
in reverse order with the first match deciding give the state that
`checkGameStatus` gives. -/
theorem line_order_irrelevant_witness :
    Reachable scenario1State ∧ scenario1Pending.board = scenario1State.board ∧
    (∀ l, l ∈ winLines.reverse ↔ l ∈ winLines) ∧
    evaluateOutcomeWith winLines.reverse true scenario1Pending =
      checkGameStatus scenario1Pending :=
  ⟨scenario1_reachable, rfl, fun _ => List.mem_reverse,
    line_order_irrelevant scenario1State scenario1_reachable scenario1Pending rfl
      winLines.reverse (fun _ => List.mem_reverse) true⟩

/-- C11: in every state reachable by clicks in which the outcome is a win
(`winner` is 1 or 2), the winner is the player who placed the last mark: the
turn is with the other player, so `winner != currentPlayer`, and every line
of three equal non-empty marks on the board holds the winner's mark. -/
theorem winner_is_last_mover (s : GameState) (hs : Reachable s)
    (hw : s.winner = 1 ∨ s.winner = 2) :
    s.winner ≠ s.currentPlayer ∧ s.currentPlayer = 3 - s.winner ∧
    ∀ l ∈ winLines, lineFilled s.board l → lineHolds s.board l s.winner := by
  have hturn := hs.turn hw
  refine ⟨?_, hturn, ?_⟩
  · rw [hturn]
    rcases hw with h | h <;> rw [h] <;> decide
  · intro l hl hf
    have h1 := hs.inv.2.2.1 l hl hf
    exact ⟨h1, by rw [← hf.2.1, h1], by rw [← hf.2.2, ← hf.2.1, h1]⟩

/-- C11 at the state after the five moves of scenario 1: X has won, the turn
is with O, and row 0, the only filled line, holds X. -/
theorem winner_is_last_mover_witness :
    Reachable scenario1State ∧ (scenario1State.winner = 1 ∨ scenario1State.winner = 2) ∧
    scenario1State.winner ≠ scenario1State.currentPlayer ∧
    scenario1State.currentPlayer = 3 - scenario1State.winner ∧
    ∀ l ∈ winLines, lineFilled scenario1State.board l →
      lineHolds scenario1State.board l scenario1State.winner :=
  ⟨scenario1_reachable, Or.inl rfl,
    winner_is_last_mover scenario1State scenario1_reachable (Or.inl rfl)⟩

end TicTacToe
